import Mathlib

/-!
# vpic-sorter: `get_configuration` and `print_help`

A shallow embedding of `src/vpic-sorter/configuration.c`.

`get_configuration` is a `while ((c = getopt (argc, argv, options)) != -1)` loop around a
`switch`.  The loop and the switch are translated from the source.  `getopt`, `atoi`, `strcpy`
and `printf` are C library functions; they are modelled here as glibc implements them:

* `getopt` is the short-option scanner of glibc (`longopts = NULL`), started in its initial
  state (`optind = 1`).  It permutes by default and stops at the first non-option when the
  environment variable `POSIXLY_CORRECT` is set; the flag `posixly_correct` carries that
  choice.  The reordering of `argv` that the permuting scan performs, and the final value of
  `optind`, are not read by `get_configuration` and are left out.
* `optarg` is reset to `NULL` at the start of every `getopt` call, `opterr` keeps its initial
  value `1` (the assignment `opterr = 0` is commented out in the source), so `getopt` writes
  a diagnostic to standard error when it returns `'?'`.
* `atoi (s)` is `(int) strtol (s, NULL, 10)`, with a 64-bit `long` and a 32-bit `int`.
* `printf ("%s", NULL)` prints `(null)`.
* `strcpy` copies the whole string; the caller's buffers are taken to be large enough.

C strings are `String`s (sequences of characters without a terminating NUL).
-/

namespace VpicSorter

/-! ## C library: `atoi` -/

/-- C `isspace` in the "C" locale. -/
def isspace (c : Char) : Bool :=
  c = ' ' || c = '\t' || c = '\n' || c = Char.ofNat 11 || c = Char.ofNat 12 || c = '\r'

/-- C `isdigit`. -/
def isdigit (c : Char) : Bool := '0' ≤ c && c ≤ '9'

/-- Skip leading white space, as `strtol` does. -/
def skipSpace : List Char → List Char
  | [] => []
  | c :: cs => if isspace c then skipSpace cs else c :: cs

/-- Value of the longest prefix of decimal digits, accumulated left to right from `acc`. -/
def digitsValue (acc : Nat) : List Char → Nat
  | [] => acc
  | c :: cs => if isdigit c then digitsValue (acc * 10 + (c.toNat - '0'.toNat)) cs else acc

def LONG_MAX : Int := 2 ^ 63 - 1
def LONG_MIN : Int := -(2 ^ 63)
def INT_MAX : Int := 2 ^ 31 - 1
def INT_MIN : Int := -(2 ^ 31)

/-- Saturation of an exact value to the range of `long`, as `strtol` does on overflow. -/
def clampLong (x : Int) : Int :=
  if x < LONG_MIN then LONG_MIN else if LONG_MAX < x then LONG_MAX else x

/-- Model of `strtol (s, NULL, 10)`: white space, an optional sign, then decimal digits. -/
def strtol10 (s : List Char) : Int :=
  match skipSpace s with
  | '-' :: cs => clampLong (-(digitsValue 0 cs : Int))
  | '+' :: cs => clampLong (digitsValue 0 cs : Int)
  | cs => clampLong (digitsValue 0 cs : Int)

/-- Conversion of a `long` to `int`: the low 32 bits, read as two's complement. -/
def toInt32 (x : Int) : Int := (x + 2 ^ 31) % 2 ^ 32 - 2 ^ 31

/-- Model of `atoi`. -/
def atoi (s : String) : Int := toInt32 (strtol10 s.data)

/-! ## C library: `getopt` -/

/-- What `getopt` writes to standard error when it returns `'?'` (`opterr` is non-zero). -/
inductive GetoptDiagnostic where
  /-- The message `prog: invalid option -- 'c'`. -/
  | invalidOption (c : Char)
  /-- The message `prog: option requires an argument -- 'c'`. -/
  | requiresArgument (c : Char)
  deriving DecidableEq, Repr

/-- The scanning position of `getopt`: `nextchar` holds the characters of the current
option element that are still to be read, `rest` is `argv + optind`, the elements after it. -/
structure GetoptState where
  nextchar : List Char
  rest : List String
  deriving DecidableEq, Repr

/-- Outcome of one call of `getopt`: the returned character (`none` for `-1`), the value left
in `optarg`, the new scanning position and what was written to standard error. -/
structure GetoptResult where
  c : Option Char
  optarg : Option String
  st : GetoptState
  err : List GetoptDiagnostic
  deriving DecidableEq, Repr

/-- C `strchr` on a string without NUL: the suffix that starts at the first `c`. -/
def strchr : List Char → Char → Option (List Char)
  | [], _ => none
  | x :: xs, c => if x = c then some (x :: xs) else strchr xs c

/-- The macro `NONOPTION_P` of glibc: the element does not start with `-`, or is `-` alone. -/
def NONOPTION_P (a : String) : Bool :=
  match a.data with
  | '-' :: _ :: _ => false
  | _ => true

/-- The permuting scan passes over non-option elements. -/
def skipNonoptions : List String → List String
  | [] => []
  | a :: as => if NONOPTION_P a then skipNonoptions as else a :: as

/-- The part of `getopt` that handles one short option character `c`; `nextchar` is what
follows `c` in its element and `rest` the elements after that element. -/
def shortOption (optstring : List Char) (c : Char) (nextchar : List Char)
    (rest : List String) : GetoptResult :=
  match strchr optstring c with
  | none => ⟨some '?', none, ⟨nextchar, rest⟩, [.invalidOption c]⟩
  | some temp =>
    if c = ':' ∨ c = ';' then ⟨some '?', none, ⟨nextchar, rest⟩, [.invalidOption c]⟩
    else
      match temp with
      | _ :: ':' :: ':' :: _ =>
        -- optional argument: only an attached one is taken
        if nextchar ≠ [] then ⟨some c, some (String.mk nextchar), ⟨[], rest⟩, []⟩
        else ⟨some c, none, ⟨[], rest⟩, []⟩
      | _ :: ':' :: _ =>
        -- required argument: the rest of the element, or else the next element
        if nextchar ≠ [] then ⟨some c, some (String.mk nextchar), ⟨[], rest⟩, []⟩
        else
          match rest with
          | [] => ⟨some '?', none, ⟨[], []⟩, [.requiresArgument c]⟩
          | a :: rest' => ⟨some c, some a, ⟨[], rest'⟩, []⟩
      | _ => ⟨some c, none, ⟨nextchar, rest⟩, []⟩

/-- One call of glibc `getopt (argc, argv, optstring)` at scanning position `st`, for an
option string that does not start with `+`, `-` or `:`. -/
def getopt (posixly_correct : Bool) (optstring : String) (st : GetoptState) : GetoptResult :=
  match st.nextchar with
  | c :: cs => shortOption optstring.data c cs st.rest
  | [] =>
    -- advance to the next element of argv
    let rest := if posixly_correct then st.rest else skipNonoptions st.rest
    match rest with
    | [] => ⟨none, none, ⟨[], []⟩, []⟩
    | a :: rest' =>
      if a = "--" then ⟨none, none, ⟨[], rest'⟩, []⟩
      else
        match a.data with
        | '-' :: c :: cs => shortOption optstring.data c cs rest'
        | _ => ⟨none, none, ⟨[], a :: rest'⟩, []⟩

/-! ## `configuration.c` -/

/-- The objects `get_configuration` writes through its pointer arguments. -/
structure Configuration where
  key_index : Int
  sort_key_only : Int
  skew_data : Int
  verbose : Int
  write_result : Int
  collect_data : Int
  weak_scale_test : Int
  weak_scale_test_length : Int
  local_sort_threaded : Int
  local_sort_threads_num : Int
  filename : String
  group_name : String
  filename_sorted : String
  filename_attribute : String
  deriving DecidableEq, Repr

/-- How a call of `get_configuration` ends: it returns `code` with the pointed-to objects
holding `cfg`, or the process is ended by `exit (status)`. -/
inductive Outcome where
  | returned (code : Int) (cfg : Configuration)
  | exited (status : Int)
  deriving DecidableEq, Repr

/-- Outcome of a call together with what it wrote to the two standard streams. -/
structure Result where
  outcome : Outcome
  stdout : String
  stderr : List GetoptDiagnostic
  deriving DecidableEq, Repr

/-- The option string of `get_configuration`. -/
def options : String := "f:o:a:g:k:hsveml:t:c"

/-- The format string `msg` of `print_help`, with `%s` already replaced by the argument
`"h5group-sorter"`: the text `print_help` writes to standard output. -/
def print_help : String :=
  "Usage: h5group-sorter [OPTION] \n" ++
  "               -h help (--help)\n" ++
  "               -f name of the file to sort \n" ++
  "               -g group path within HDF5 file to data set \n" ++
  "               -o name of the file to store sorted results \n" ++
  "               -a name of the attribute file to store sort table  \n" ++
  "               -k the index key of the file \n" ++
  "               -s the data is in skew shape \n" ++
  "               -e only sort the key  \n" ++
  "               -v verbose  \n" ++
  "               example: ./h5group-sorter -f testf.h5p  -g /testg  -o testg-sorted.h5p -a testf.attribute -k 0 \n"

/-- The assignments under `/* Default values */`; the four text buffers are not written and
keep what the caller put in them. -/
def defaults (filename group_name filename_sorted filename_attribute : String) :
    Configuration :=
  { key_index := 1
    sort_key_only := 0
    skew_data := 0
    verbose := 0
    write_result := 1
    collect_data := 1
    weak_scale_test := 0
    weak_scale_test_length := 1000000
    local_sort_threaded := 0
    local_sort_threads_num := 16
    filename := filename
    group_name := group_name
    filename_sorted := filename_sorted
    filename_attribute := filename_attribute }

/-- What one pass through the `switch` does. -/
inductive Action where
  /-- The case ends in `break`: the loop goes on with the updated objects. -/
  | next (cfg : Configuration)
  /-- The case `'h'`: `return 1`, after writing `out` to standard output. -/
  | ret (code : Int) (out : String)
  /-- The `default` case: `exit`, after writing `out` to standard output. -/
  | quit (status : Int) (out : String)
  /-- A null `optarg` would be passed to `strcpy` or `atoi`. -/
  | undefined
  deriving DecidableEq, Repr

/-- The argument of `%s` as `printf` shows it. -/
def showString : Option String → String
  | some s => s
  | none => "(null)"

/-- The `switch (c)` of `get_configuration`. -/
def switch (mpi_rank : Int) (c : Char) (optarg : Option String) (cfg : Configuration) :
    Action :=
  if c = 'f' then
    match optarg with
    | some a => .next { cfg with filename := a }
    | none => .undefined
  else if c = 'o' then
    match optarg with
    | some a => .next { cfg with filename_sorted := a }
    | none => .undefined
  else if c = 'a' then
    match optarg with
    | some a => .next { cfg with filename_attribute := a }
    | none => .undefined
  else if c = 'g' then
    match optarg with
    | some a => .next { cfg with group_name := a }
    | none => .undefined
  else if c = 'k' then
    match optarg with
    | some a => .next { cfg with key_index := atoi a }
    | none => .undefined
  else if c = 's' then .next { cfg with skew_data := 1 }
  else if c = 'm' then .next { cfg with write_result := 0 }
  else if c = 'v' then .next { cfg with verbose := 1 }
  else if c = 'l' then
    match optarg with
    | some a => .next { cfg with weak_scale_test := 1, weak_scale_test_length := atoi a }
    | none => .undefined
  else if c = 'e' then .next { cfg with sort_key_only := 1 }
  else if c = 't' then
    match optarg with
    | some a => .next { cfg with local_sort_threaded := 1, local_sort_threads_num := atoi a }
    | none => .undefined
  else if c = 'c' then .next { cfg with collect_data := 0 }
  else if c = 'h' then .ret 1 (if mpi_rank = 0 then print_help else "")
  else .quit (-1) ("Error option [" ++ showString optarg ++ "]\n")

/-- The `while` loop of `get_configuration`, run for at most `fuel` calls of `getopt`;
`err` is what has been written to standard error so far.  `none` means that the model
assigns no result: the fuel ran out, or the switch met a null `optarg`. -/
def loop (posixly_correct : Bool) (mpi_rank : Int) :
    Nat → GetoptState → Configuration → List GetoptDiagnostic → Option Result
  | 0, _, _, _ => none
  | fuel + 1, st, cfg, err =>
    let r := getopt posixly_correct options st
    match r.c with
    | none => some ⟨.returned 0 cfg, "", err ++ r.err⟩
    | some c =>
      match switch mpi_rank c r.optarg cfg with
      | .next cfg' => loop posixly_correct mpi_rank fuel r.st cfg' (err ++ r.err)
      | .ret code out => some ⟨.returned code cfg, out, err ++ r.err⟩
      | .quit status out => some ⟨.exited status, out, err ++ r.err⟩
      | .undefined => none

/-- Number of characters and elements `getopt` still has to read: every call that returns an
option lowers it. -/
def remaining (st : GetoptState) : Nat :=
  st.nextchar.length + (st.rest.map fun a => a.data.length + 1).sum

/-- The function `get_configuration`.  `argv` is the whole argument vector, `argv[0]`
included; the last four arguments are the contents of the caller's text buffers. -/
def get_configuration (posixly_correct : Bool) (argv : List String) (mpi_rank : Int)
    (filename group_name filename_sorted filename_attribute : String) : Option Result :=
  let st : GetoptState := ⟨[], argv.drop 1⟩
  loop posixly_correct mpi_rank (remaining st + 1) st
    (defaults filename group_name filename_sorted filename_attribute) []

/-- The weight `remaining` gives to a list of argv elements. -/
def weight (rest : List String) : Nat := (rest.map fun a => a.data.length + 1).sum

/-- The loop of `get_configuration` started at scanning position `st` with enough fuel. -/
def run (pc : Bool) (rank : Int) (st : GetoptState) (cfg : Configuration)
    (err : List GetoptDiagnostic) : Option Result :=
  loop pc rank (remaining st + 1) st cfg err

/-! ## The option grammar -/

/-- A recognized option other than `-h`, with its value token when it takes one. -/
inductive Opt where
  | f (value : String)
  | o (value : String)
  | a (value : String)
  | g (value : String)
  | k (value : String)
  | s
  | e
  | v
  | m
  | c
  | l (value : String)
  | t (value : String)
  deriving DecidableEq, Repr

/-- The option character. -/
def Opt.letter : Opt → Char
  | .f _ => 'f' | .o _ => 'o' | .a _ => 'a' | .g _ => 'g' | .k _ => 'k'
  | .s => 's' | .e => 'e' | .v => 'v' | .m => 'm' | .c => 'c'
  | .l _ => 'l' | .t _ => 't'

/-- The argv elements that supply the option in separated form. -/
def Opt.tokens : Opt → List String
  | .f x => ["-f", x] | .o x => ["-o", x] | .a x => ["-a", x] | .g x => ["-g", x]
  | .k x => ["-k", x]
  | .s => ["-s"] | .e => ["-e"] | .v => ["-v"] | .m => ["-m"] | .c => ["-c"]
  | .l x => ["-l", x] | .t x => ["-t", x]

/-- The argument vector (without `argv[0]`) that supplies the options one after the other. -/
def argsOf : List Opt → List String
  | [] => []
  | o :: os => o.tokens ++ argsOf os

/-- The effect of an option on the configuration, after the option table of the
specification; an integer value is read with `atoi`. -/
def Opt.apply (cfg : Configuration) : Opt → Configuration
  | .f x => { cfg with filename := x }
  | .o x => { cfg with filename_sorted := x }
  | .a x => { cfg with filename_attribute := x }
  | .g x => { cfg with group_name := x }
  | .k x => { cfg with key_index := atoi x }
  | .s => { cfg with skew_data := 1 }
  | .e => { cfg with sort_key_only := 1 }
  | .v => { cfg with verbose := 1 }
  | .m => { cfg with write_result := 0 }
  | .c => { cfg with collect_data := 0 }
  | .l x => { cfg with weak_scale_test := 1, weak_scale_test_length := atoi x }
  | .t x => { cfg with local_sort_threaded := 1, local_sort_threads_num := atoi x }

/-- The field (for `-l` and `-t`: the two fields) that the option writes holds the value
the option gives it. -/
def Opt.holdsIn (cfg : Configuration) : Opt → Prop
  | .f x => cfg.filename = x
  | .o x => cfg.filename_sorted = x
  | .a x => cfg.filename_attribute = x
  | .g x => cfg.group_name = x
  | .k x => cfg.key_index = atoi x
  | .s => cfg.skew_data = 1
  | .e => cfg.sort_key_only = 1
  | .v => cfg.verbose = 1
  | .m => cfg.write_result = 0
  | .c => cfg.collect_data = 0
  | .l x => cfg.weak_scale_test = 1 ∧ cfg.weak_scale_test_length = atoi x
  | .t x => cfg.local_sort_threaded = 1 ∧ cfg.local_sort_threads_num = atoi x

/-- The option characters: the case labels of the `switch`, which are also the letters of
`options`. -/
def optionCharacters : List Char :=
  ['f', 'o', 'a', 'g', 'k', 'h', 's', 'v', 'e', 'm', 'l', 't', 'c']

/-- The option characters that `options` marks with `:`, those that take a value. -/
def valueCharacters : List Char := ['f', 'o', 'a', 'g', 'k', 'l', 't']

/-- What the loop does with the result `g` of a `getopt` call: the body of the `while`. -/
def continueWith (pc : Bool) (rank : Int) (cfg : Configuration)
    (err : List GetoptDiagnostic) (g : GetoptResult) : Option Result :=
  match g.c with
  | none => some ⟨.returned 0 cfg, "", err ++ g.err⟩
  | some c =>
    match switch rank c g.optarg cfg with
    | .next cfg' => run pc rank g.st cfg' (err ++ g.err)
    | .ret code out => some ⟨.returned code cfg, out, err ++ g.err⟩
    | .quit status out => some ⟨.exited status, out, err ++ g.err⟩
    | .undefined => none

/-- The element is an option element that holds a character which is no option
character. -/
def hasUnrecognizedCharacter (a : String) : Prop :=
  a.data.head? = some '-' ∧ ∃ c ∈ a.data.tail, c ∉ optionCharacters

/-- The element is an option element whose last character is an option character that
takes a value. -/
def endsInValueOption (a : String) : Prop :=
  a.data.head? = some '-' ∧ ∃ c, a.data.tail.getLast? = some c ∧ c ∈ valueCharacters

/-- What can make the scan from position `st` end in `exit`: an unrecognized character
ahead, or a value-taking option character at the very end of the vector. -/
def FatalCause (st : GetoptState) : Prop :=
  (∃ c ∈ st.nextchar, c ∉ optionCharacters) ∨
  (∃ a ∈ st.rest, hasUnrecognizedCharacter a) ∨
  (st.rest = [] ∧ ∃ c, st.nextchar.getLast? = some c ∧ c ∈ valueCharacters) ∨
  (∃ a, st.rest.getLast? = some a ∧ endsInValueOption a)

/-- The characters that follow an optional sign. -/
def dropSign : List Char → List Char
  | '-' :: cs => cs
  | '+' :: cs => cs
  | cs => cs

/-- The character `x` occurs neither in what is left of the current option element nor in
any later element that starts with `-`. -/
def NoOptionCharacter (x : Char) (st : GetoptState) : Prop :=
  x ∉ st.nextchar ∧ ∀ a ∈ st.rest, a.data.head? = some '-' → x ∉ a.data.tail

/-- The coupling of the two parameters with their enabling flags: while a flag is 0 its
parameter has the default value. -/
def Coupled (cfg : Configuration) : Prop :=
  (cfg.weak_scale_test = 0 → cfg.weak_scale_test_length = 1000000) ∧
  (cfg.local_sort_threaded = 0 → cfg.local_sort_threads_num = 16)

/-- Two results of the loop, for the ranks `r1` and `r2`, that differ at most in whether
the help text was printed on `return 1`. -/
def SameUpToHelp (r1 r2 : Int) : Option Result → Option Result → Prop
  | none, none => True
  | some a, some b =>
    a.outcome = b.outcome ∧ a.stderr = b.stderr ∧
      (a.stdout = b.stdout ∨
        ((∃ cfg, a.outcome = .returned 1 cfg) ∧
          a.stdout = (if r1 = 0 then print_help else "") ∧
          b.stdout = (if r2 = 0 then print_help else "")))
  | _, _ => False

/-! ## Termination of the scan -/

theorem weight_cons (a : String) (rest : List String) :
    weight (a :: rest) = a.data.length + 1 + weight rest := by
  simp [weight]

theorem weight_skipNonoptions (rest : List String) :
    weight (skipNonoptions rest) ≤ weight rest := by
  induction rest with
  | nil => simp [skipNonoptions]
  | cons a rest ih =>
    unfold skipNonoptions
    split
    · rw [weight_cons]; omega
    · exact Nat.le_refl _

theorem shortOption_remaining (os : List Char) (c : Char) (cs : List Char)
    (rest : List String) :
    remaining (shortOption os c cs rest).st ≤ cs.length + weight rest := by
  unfold shortOption
  split
  · simp [remaining, weight]
  · split
    · simp [remaining, weight]
    · split
      · split <;> simp [remaining, weight]
      · split
        · simp [remaining, weight]
        · split
          · simp [remaining, weight]
          · simp [remaining, weight]; omega
      · simp [remaining, weight]

theorem getopt_remaining (pc : Bool) (os : String) (st : GetoptState) (c : Char)
    (h : (getopt pc os st).c = some c) :
    remaining (getopt pc os st).st < remaining st := by
  obtain ⟨nc, rest⟩ := st
  cases nc with
  | cons x xs =>
    have := shortOption_remaining os.data x xs rest
    simp only [getopt]
    simp only [remaining, List.length_cons] at *
    simp only [weight] at this
    omega
  | nil =>
    have hw : weight (if pc then rest else skipNonoptions rest) ≤ weight rest := by
      cases pc
      · simpa using weight_skipNonoptions rest
      · simp
    simp only [getopt] at h ⊢
    generalize (if pc = true then rest else skipNonoptions rest) = rest0 at h hw ⊢
    cases rest0 with
    | nil => simp at h
    | cons a rest' =>
      simp only at h ⊢
      by_cases ha : a = "--"
      · simp [ha] at h
      · simp only [ha, if_false] at h ⊢
        rw [weight_cons] at hw
        split
        · rename_i c' cs heq
          have := shortOption_remaining os.data c' cs rest'
          rw [heq] at hw
          simp only [remaining, List.length_cons, List.length_nil] at *
          simp only [weight] at *
          omega
        · rename_i hne
          split at h
          · rename_i c' cs heq
            exact absurd heq (hne c' cs)
          · simp at h

/-- Once the fuel exceeds `remaining st`, more fuel changes nothing. -/
theorem loop_fuel (pc : Bool) (rank : Int) :
    ∀ (n m : Nat) (st : GetoptState) (cfg : Configuration) (err : List GetoptDiagnostic),
      remaining st < n → remaining st < m →
      loop pc rank n st cfg err = loop pc rank m st cfg err := by
  intro n
  induction n with
  | zero => intro m st cfg err h; omega
  | succ n ih =>
    intro m st cfg err hn hm
    cases m with
    | zero => omega
    | succ m =>
      simp only [loop]
      cases hc : (getopt pc options st).c with
      | none => rfl
      | some c =>
        have hdec := getopt_remaining pc options st c hc
        simp only
        cases switch rank c (getopt pc options st).optarg cfg with
        | next cfg' => exact ih m _ _ _ (by omega) (by omega)
        | ret code out => rfl
        | quit status out => rfl
        | undefined => rfl

/-- One iteration of the `while` loop, with the fuel out of sight. -/
theorem run_step (pc : Bool) (rank : Int) (st : GetoptState) (cfg : Configuration)
    (err : List GetoptDiagnostic) :
    run pc rank st cfg err =
      match (getopt pc options st).c with
      | none => some ⟨.returned 0 cfg, "", err ++ (getopt pc options st).err⟩
      | some c =>
        match switch rank c (getopt pc options st).optarg cfg with
        | .next cfg' =>
          run pc rank (getopt pc options st).st cfg' (err ++ (getopt pc options st).err)
        | .ret code out => some ⟨.returned code cfg, out, err ++ (getopt pc options st).err⟩
        | .quit status out => some ⟨.exited status, out, err ++ (getopt pc options st).err⟩
        | .undefined => none := by
  simp only [run, loop]
  cases hc : (getopt pc options st).c with
  | none => rfl
  | some c =>
    have hdec := getopt_remaining pc options st c hc
    simp only
    cases switch rank c (getopt pc options st).optarg cfg with
    | next cfg' =>
      exact loop_fuel pc rank (remaining st) (remaining (getopt pc options st).st + 1)
        _ _ _ (by omega) (by omega)
    | ret code out => rfl
    | quit status out => rfl
    | undefined => rfl

theorem get_configuration_eq_run (pc : Bool) (argv : List String) (rank : Int)
    (fn gn fs fa : String) :
    get_configuration pc argv rank fn gn fs fa =
      run pc rank ⟨[], argv.drop 1⟩ (defaults fn gn fs fa) [] := rfl

/-! ## Scanning a vector of recognized options -/

theorem getopt_tokens (pc : Bool) (o : Opt) (rest : List String) :
    getopt pc options ⟨[], o.tokens ++ rest⟩ =
      ⟨some o.letter, (o.tokens.drop 1).head?, ⟨[], rest⟩, []⟩ := by
  cases o <;> cases pc <;> rfl

theorem switch_letter (rank : Int) (o : Opt) (cfg : Configuration) :
    switch rank o.letter (o.tokens.drop 1).head? cfg = .next (o.apply cfg) := by
  cases o <;> rfl

theorem run_tokens (pc : Bool) (rank : Int) (o : Opt) (rest : List String)
    (cfg : Configuration) (err : List GetoptDiagnostic) :
    run pc rank ⟨[], o.tokens ++ rest⟩ cfg err = run pc rank ⟨[], rest⟩ (o.apply cfg) err := by
  rw [run_step, getopt_tokens]
  simp only [switch_letter, List.append_nil]

theorem run_argsOf (pc : Bool) (rank : Int) (os : List Opt) (rest : List String)
    (cfg : Configuration) (err : List GetoptDiagnostic) :
    run pc rank ⟨[], argsOf os ++ rest⟩ cfg err =
      run pc rank ⟨[], rest⟩ (os.foldl Opt.apply cfg) err := by
  induction os generalizing cfg with
  | nil => rfl
  | cons o os ih =>
    simp only [argsOf, List.append_assoc, List.foldl_cons]
    rw [run_tokens, ih]

/-! ## Reading back a decimal numeral -/

theorem digitChar_isdigit (d : Nat) (h : d < 10) :
    isdigit (Nat.digitChar d) = true ∧ (Nat.digitChar d).toNat - '0'.toNat = d := by
  interval_cases d <;> decide

theorem digitsValue_toDigitsCore (fuel : Nat) :
    ∀ (n : Nat) (ds : List Char), n < fuel →
      digitsValue 0 (Nat.toDigitsCore 10 fuel n ds) = digitsValue n ds := by
  induction fuel with
  | zero => intro n ds h; omega
  | succ fuel ih =>
    intro n ds h
    obtain ⟨hd, hv⟩ := digitChar_isdigit (n % 10) (Nat.mod_lt _ (by decide))
    simp only [Nat.toDigitsCore]
    split
    · rename_i h0
      have : n % 10 = n := by omega
      simp only [digitsValue, hd, if_true, hv]
      simp [this]
    · rename_i h0
      rw [ih _ _ (by omega)]
      simp only [digitsValue, hd, if_true, hv]
      congr 1
      omega

theorem toDigitsCore_head (fuel : Nat) :
    ∀ (n : Nat) (ds : List Char), n < fuel →
      ∃ c tl, Nat.toDigitsCore 10 fuel n ds = c :: tl ∧ isdigit c = true := by
  induction fuel with
  | zero => intro n ds h; omega
  | succ fuel ih =>
    intro n ds h
    simp only [Nat.toDigitsCore]
    split
    · exact ⟨_, _, rfl, (digitChar_isdigit (n % 10) (Nat.mod_lt _ (by decide))).1⟩
    · exact ih _ _ (by omega)

theorem isdigit_not_special (c : Char) (h : isdigit c = true) :
    isspace c = false ∧ c ≠ '-' ∧ c ≠ '+' := by
  simp only [isdigit, Bool.and_eq_true, decide_eq_true_eq] at h
  obtain ⟨h1, h2⟩ := h
  have h1' : '0'.toNat ≤ c.toNat := h1
  have h2' : c.toNat ≤ '9'.toNat := h2
  have e0 : '0'.toNat = 48 := rfl
  have e9 : '9'.toNat = 57 := rfl
  refine ⟨?_, ?_, ?_⟩
  · simp only [isspace, Bool.or_eq_false_iff, decide_eq_false_iff_not]
    refine ⟨⟨⟨⟨⟨?_, ?_⟩, ?_⟩, ?_⟩, ?_⟩, ?_⟩ <;>
      (intro h; subst h; revert h1' h2'; decide)
  · intro h; subst h; revert h1' h2'; decide
  · intro h; subst h; revert h1' h2'; decide

theorem strtol10_repr (n : Nat) : strtol10 (Nat.repr n).data = clampLong n := by
  have hdata : (Nat.repr n).data = Nat.toDigitsCore 10 (n + 1) n [] := rfl
  obtain ⟨c, tl, hc, hdig⟩ := toDigitsCore_head (n + 1) n [] (by omega)
  have hv := digitsValue_toDigitsCore (n + 1) n [] (by omega)
  obtain ⟨hsp, hm, hp⟩ := isdigit_not_special c hdig
  rw [hdata]
  rw [hc] at hv ⊢
  have hskip : skipSpace (c :: tl) = c :: tl := by simp [skipSpace, hsp]
  unfold strtol10
  rw [hskip]
  split
  · rename_i heq; simp at heq; exact absurd heq.1 hm
  · rename_i heq; simp at heq; exact absurd heq.1 hp
  · rw [hv]; simp [digitsValue]

theorem strtol10_neg_repr (n : Nat) :
    strtol10 ('-' :: (Nat.repr n).data) = clampLong (-(n : Int)) := by
  have hdata : (Nat.repr n).data = Nat.toDigitsCore 10 (n + 1) n [] := rfl
  have hv := digitsValue_toDigitsCore (n + 1) n [] (by omega)
  have hskip : ∀ tl, skipSpace ('-' :: tl) = '-' :: tl := by
    intro tl; simp [skipSpace, isspace]
  unfold strtol10
  rw [hskip, hdata]
  simp only [hv, digitsValue]

/-- A decimal numeral of an `int` is read back by `atoi` as that `int`. -/
theorem atoi_toString (n : Int) (hlo : INT_MIN ≤ n) (hhi : n ≤ INT_MAX) :
    atoi (toString n) = n := by
  simp only [INT_MIN, INT_MAX] at hlo hhi
  have hclamp : clampLong n = n := by
    simp only [clampLong, LONG_MIN, LONG_MAX]
    split
    · omega
    · split
      · omega
      · rfl
  have h32 : toInt32 n = n := by
    simp only [toInt32]
    omega
  cases n with
  | ofNat m =>
    have : (toString (Int.ofNat m)).data = (Nat.repr m).data := rfl
    simp only [atoi, this, strtol10_repr]
    exact (congrArg toInt32 hclamp).trans h32
  | negSucc m =>
    have : (toString (Int.negSucc m)).data = '-' :: (Nat.repr (m + 1)).data := rfl
    simp only [atoi, this, strtol10_neg_repr]
    have e : (-((m + 1 : Nat) : Int)) = Int.negSucc m := by
      rw [Int.negSucc_eq]; push_cast; rfl
    rw [e]
    exact (congrArg toInt32 hclamp).trans h32

/-! ## Vectors without option elements -/

theorem NONOPTION_P_of_shape (a : String)
    (h : a.data.head? ≠ some '-' ∨ a.data.length ≤ 1) : NONOPTION_P a = true := by
  unfold NONOPTION_P
  split
  · rename_i heq
    rw [heq] at h
    simp at h
  · rfl

theorem skipNonoptions_all (rest : List String) (h : ∀ a ∈ rest, NONOPTION_P a = true) :
    skipNonoptions rest = [] := by
  induction rest with
  | nil => rfl
  | cons a rest ih =>
    have ha := h a (List.mem_cons_self _ _)
    simp only [skipNonoptions, ha, if_true]
    exact ih fun b hb => h b (List.mem_cons_of_mem _ hb)

theorem getopt_nonoptions (pc : Bool) (os : String) (rest : List String)
    (h : ∀ a ∈ rest, NONOPTION_P a = true) :
    (getopt pc os ⟨[], rest⟩).c = none ∧ (getopt pc os ⟨[], rest⟩).err = [] := by
  cases pc with
  | false => simp [getopt, skipNonoptions_all rest h]
  | true =>
    cases rest with
    | nil => simp [getopt]
    | cons a rest' =>
      have ha := h a (List.mem_cons_self _ _)
      have hne : a ≠ "--" := by
        intro e; subst e; revert ha; decide
      simp only [getopt, if_true, hne, if_false]
      unfold NONOPTION_P at ha
      split
      · rename_i c cs heq
        rw [heq] at ha
        simp at ha
      · exact ⟨rfl, rfl⟩

theorem run_nonoptions (pc : Bool) (rank : Int) (rest : List String)
    (h : ∀ a ∈ rest, NONOPTION_P a = true) (cfg : Configuration)
    (err : List GetoptDiagnostic) :
    run pc rank ⟨[], rest⟩ cfg err = some ⟨.returned 0 cfg, "", err⟩ := by
  obtain ⟨hc, he⟩ := getopt_nonoptions pc options rest h
  rw [run_step, hc, he, List.append_nil]

theorem run_nil (pc : Bool) (rank : Int) (cfg : Configuration)
    (err : List GetoptDiagnostic) :
    run pc rank ⟨[], []⟩ cfg err = some ⟨.returned 0 cfg, "", err⟩ :=
  run_nonoptions pc rank [] (fun _ h => absurd h (List.not_mem_nil _)) cfg err

/-- A vector of recognized options other than `-h`, each followed by its value token, is
scanned to its end: the call returns 0 and the options have been applied from left to
right to the defaults. -/
theorem get_configuration_argsOf (pc : Bool) (prog : String) (os : List Opt) (rank : Int)
    (fn gn fs fa : String) :
    get_configuration pc (prog :: argsOf os) rank fn gn fs fa =
      some ⟨.returned 0 (os.foldl Opt.apply (defaults fn gn fs fa)), "", []⟩ := by
  have h := run_argsOf pc rank os [] (defaults fn gn fs fa) []
  rw [List.append_nil, run_nil] at h
  exact h

/-! ## C1 -/

/-- C1, counterexample: the vector `-z` contains no recognized option (`z` is not a
character of the option string), yet the call does not return 0 with the defaults: it
ends the process with `exit (-1)`. -/
theorem defaults_fail_on_unrecognized_option :
    'z' ∉ options.data ∧
    get_configuration false ["h5group-sorter", "-z"] 0 "" "" "" "" =
      some ⟨.exited (-1), "Error option [(null)]\n", [.invalidOption 'z']⟩ ∧
    get_configuration true ["h5group-sorter", "-z"] 0 "" "" "" "" =
      some ⟨.exited (-1), "Error option [(null)]\n", [.invalidOption 'z']⟩ := by
  decide

/-- C1, amended: for every argument vector that contains no option token at all (no
element that is `-` followed by at least one more character; in particular the empty
vector) and every rank, `get_configuration` returns 0 with `key_index = 1`,
`sort_key_only = 0`, `skew_data = 0`, `verbose = 0`, `write_result = 1`,
`collect_data = 1`, `weak_scale_test = 0`, `weak_scale_test_length = 1000000`,
`local_sort_threaded = 0`, `local_sort_threads_num = 16`; the text buffers are left as
the caller passed them and nothing is printed. -/
theorem defaults_without_option_tokens (pc : Bool) (prog : String) (args : List String)
    (rank : Int) (fn gn fs fa : String)
    (h : ∀ a ∈ args, a.data.head? ≠ some '-' ∨ a.data.length ≤ 1) :
    get_configuration pc (prog :: args) rank fn gn fs fa =
      some ⟨.returned 0
        { key_index := 1, sort_key_only := 0, skew_data := 0, verbose := 0,
          write_result := 1, collect_data := 1, weak_scale_test := 0,
          weak_scale_test_length := 1000000, local_sort_threaded := 0,
          local_sort_threads_num := 16, filename := fn, group_name := gn,
          filename_sorted := fs, filename_attribute := fa }, "", []⟩ :=
  run_nonoptions pc rank args (fun a ha => NONOPTION_P_of_shape a (h a ha)) _ []

/-- C1, witness: the vector `data.h5 - ""` at rank 3, and the empty vector at rank 0. -/
theorem defaults_without_option_tokens_witness :
    (∀ a ∈ ["data.h5", "-", ""], a.data.head? ≠ some '-' ∨ a.data.length ≤ 1) ∧
    get_configuration false ["h5group-sorter", "data.h5", "-", ""] 3 "x" "y" "" "" =
      some ⟨.returned 0
        { key_index := 1, sort_key_only := 0, skew_data := 0, verbose := 0,
          write_result := 1, collect_data := 1, weak_scale_test := 0,
          weak_scale_test_length := 1000000, local_sort_threaded := 0,
          local_sort_threads_num := 16, filename := "x", group_name := "y",
          filename_sorted := "", filename_attribute := "" }, "", []⟩ :=
  ⟨by decide,
   defaults_without_option_tokens false "h5group-sorter" ["data.h5", "-", ""] 3 "x" "y" "" ""
     (by decide)⟩

/-! ## Fields after a left-to-right application of options -/

theorem holdsIn_apply (o : Opt) (cfg : Configuration) : o.holdsIn (o.apply cfg) := by
  cases o <;> simp [Opt.holdsIn, Opt.apply]

theorem holdsIn_apply_other (o o' : Opt) (cfg : Configuration)
    (hne : o'.letter ≠ o.letter) (h : o.holdsIn cfg) : o.holdsIn (o'.apply cfg) := by
  cases o <;> cases o' <;>
    first
    | exact absurd rfl hne
    | exact h

theorem holdsIn_foldl (o : Opt) (post : List Opt)
    (hpost : ∀ o' ∈ post, o'.letter ≠ o.letter) :
    ∀ cfg : Configuration, o.holdsIn cfg → o.holdsIn (post.foldl Opt.apply cfg) := by
  induction post with
  | nil => intro cfg h; exact h
  | cons p post ih =>
    intro cfg h
    rw [List.foldl_cons]
    exact ih (fun o' ho' => hpost o' (List.mem_cons_of_mem _ ho')) _
      (holdsIn_apply_other o p cfg (hpost p (List.mem_cons_self _ _)) h)

/-- The last occurrence of an option decides its field. -/
theorem holdsIn_last (pre post : List Opt) (o : Opt)
    (hpost : ∀ o' ∈ post, o'.letter ≠ o.letter) (cfg : Configuration) :
    o.holdsIn ((pre ++ o :: post).foldl Opt.apply cfg) := by
  rw [List.foldl_append, List.foldl_cons]
  exact holdsIn_foldl o post hpost _ (holdsIn_apply o _)

/-- A field that no option of the list writes keeps its value. -/
theorem foldl_frame {α : Type} (field : Configuration → α) (c : Char)
    (hstep : ∀ (o : Opt) (cfg : Configuration), o.letter ≠ c →
      field (o.apply cfg) = field cfg)
    (os : List Opt) (habs : ∀ o ∈ os, o.letter ≠ c) :
    ∀ cfg : Configuration, field (os.foldl Opt.apply cfg) = field cfg := by
  induction os with
  | nil => intro cfg; rfl
  | cons o os ih =>
    intro cfg
    rw [List.foldl_cons, ih (fun o' ho' => habs o' (List.mem_cons_of_mem _ ho'))]
    exact hstep o cfg (habs o (List.mem_cons_self _ _))

theorem frame_filename (os : List Opt) (h : ∀ x, Opt.f x ∉ os) (cfg : Configuration) :
    (os.foldl Opt.apply cfg).filename = cfg.filename :=
  foldl_frame (fun c => c.filename) 'f'
    (by intro o cfg hne; cases o <;> first | rfl | exact absurd rfl hne) os
    (by intro o ho hl; cases o <;> first | exact h _ ho | exact absurd hl (by simp only [Opt.letter]; decide)) cfg

theorem frame_filename_sorted (os : List Opt) (h : ∀ x, Opt.o x ∉ os)
    (cfg : Configuration) :
    (os.foldl Opt.apply cfg).filename_sorted = cfg.filename_sorted :=
  foldl_frame (fun c => c.filename_sorted) 'o'
    (by intro o cfg hne; cases o <;> first | rfl | exact absurd rfl hne) os
    (by intro o ho hl; cases o <;> first | exact h _ ho | exact absurd hl (by simp only [Opt.letter]; decide)) cfg

theorem frame_filename_attribute (os : List Opt) (h : ∀ x, Opt.a x ∉ os)
    (cfg : Configuration) :
    (os.foldl Opt.apply cfg).filename_attribute = cfg.filename_attribute :=
  foldl_frame (fun c => c.filename_attribute) 'a'
    (by intro o cfg hne; cases o <;> first | rfl | exact absurd rfl hne) os
    (by intro o ho hl; cases o <;> first | exact h _ ho | exact absurd hl (by simp only [Opt.letter]; decide)) cfg

theorem frame_group_name (os : List Opt) (h : ∀ x, Opt.g x ∉ os) (cfg : Configuration) :
    (os.foldl Opt.apply cfg).group_name = cfg.group_name :=
  foldl_frame (fun c => c.group_name) 'g'
    (by intro o cfg hne; cases o <;> first | rfl | exact absurd rfl hne) os
    (by intro o ho hl; cases o <;> first | exact h _ ho | exact absurd hl (by simp only [Opt.letter]; decide)) cfg

theorem frame_key_index (os : List Opt) (h : ∀ x, Opt.k x ∉ os) (cfg : Configuration) :
    (os.foldl Opt.apply cfg).key_index = cfg.key_index :=
  foldl_frame (fun c => c.key_index) 'k'
    (by intro o cfg hne; cases o <;> first | rfl | exact absurd rfl hne) os
    (by intro o ho hl; cases o <;> first | exact h _ ho | exact absurd hl (by simp only [Opt.letter]; decide)) cfg

theorem frame_skew_data (os : List Opt) (h : Opt.s ∉ os) (cfg : Configuration) :
    (os.foldl Opt.apply cfg).skew_data = cfg.skew_data :=
  foldl_frame (fun c => c.skew_data) 's'
    (by intro o cfg hne; cases o <;> first | rfl | exact absurd rfl hne) os
    (by intro o ho hl; cases o <;> first | exact h ho | exact absurd hl (by simp only [Opt.letter]; decide)) cfg

theorem frame_sort_key_only (os : List Opt) (h : Opt.e ∉ os) (cfg : Configuration) :
    (os.foldl Opt.apply cfg).sort_key_only = cfg.sort_key_only :=
  foldl_frame (fun c => c.sort_key_only) 'e'
    (by intro o cfg hne; cases o <;> first | rfl | exact absurd rfl hne) os
    (by intro o ho hl; cases o <;> first | exact h ho | exact absurd hl (by simp only [Opt.letter]; decide)) cfg

theorem frame_verbose (os : List Opt) (h : Opt.v ∉ os) (cfg : Configuration) :
    (os.foldl Opt.apply cfg).verbose = cfg.verbose :=
  foldl_frame (fun c => c.verbose) 'v'
    (by intro o cfg hne; cases o <;> first | rfl | exact absurd rfl hne) os
    (by intro o ho hl; cases o <;> first | exact h ho | exact absurd hl (by simp only [Opt.letter]; decide)) cfg

theorem frame_write_result (os : List Opt) (h : Opt.m ∉ os) (cfg : Configuration) :
    (os.foldl Opt.apply cfg).write_result = cfg.write_result :=
  foldl_frame (fun c => c.write_result) 'm'
    (by intro o cfg hne; cases o <;> first | rfl | exact absurd rfl hne) os
    (by intro o ho hl; cases o <;> first | exact h ho | exact absurd hl (by simp only [Opt.letter]; decide)) cfg

theorem frame_collect_data (os : List Opt) (h : Opt.c ∉ os) (cfg : Configuration) :
    (os.foldl Opt.apply cfg).collect_data = cfg.collect_data :=
  foldl_frame (fun c => c.collect_data) 'c'
    (by intro o cfg hne; cases o <;> first | rfl | exact absurd rfl hne) os
    (by intro o ho hl; cases o <;> first | exact h ho | exact absurd hl (by simp only [Opt.letter]; decide)) cfg

theorem frame_weak_scale (os : List Opt) (h : ∀ x, Opt.l x ∉ os) (cfg : Configuration) :
    (os.foldl Opt.apply cfg).weak_scale_test = cfg.weak_scale_test ∧
    (os.foldl Opt.apply cfg).weak_scale_test_length = cfg.weak_scale_test_length := by
  have h1 := foldl_frame (fun c => (c.weak_scale_test, c.weak_scale_test_length)) 'l'
    (by intro o cfg hne; cases o <;> first | rfl | exact absurd rfl hne) os
    (by intro o ho hl; cases o <;> first | exact h _ ho | exact absurd hl (by simp only [Opt.letter]; decide)) cfg
  exact ⟨congrArg Prod.fst h1, congrArg Prod.snd h1⟩

theorem frame_local_sort (os : List Opt) (h : ∀ x, Opt.t x ∉ os) (cfg : Configuration) :
    (os.foldl Opt.apply cfg).local_sort_threaded = cfg.local_sort_threaded ∧
    (os.foldl Opt.apply cfg).local_sort_threads_num = cfg.local_sort_threads_num := by
  have h1 := foldl_frame (fun c => (c.local_sort_threaded, c.local_sort_threads_num)) 't'
    (by intro o cfg hne; cases o <;> first | rfl | exact absurd rfl hne) os
    (by intro o ho hl; cases o <;> first | exact h _ ho | exact absurd hl (by simp only [Opt.letter]; decide)) cfg
  exact ⟨congrArg Prod.fst h1, congrArg Prod.snd h1⟩

theorem holdsIn_of_mem_nodup (os : List Opt) (hnodup : (os.map Opt.letter).Nodup)
    (o : Opt) (ho : o ∈ os) (cfg : Configuration) :
    o.holdsIn (os.foldl Opt.apply cfg) := by
  obtain ⟨pre, post, rfl⟩ := List.append_of_mem ho
  apply holdsIn_last
  intro o' ho' heq
  rw [List.map_append, List.map_cons] at hnodup
  have h2 := (List.nodup_append.1 hnodup).2.1
  rw [List.nodup_cons] at h2
  exact h2.1 (heq ▸ List.mem_map_of_mem _ ho')

/-! ## C2 -/

/-- C2: for every argument vector made only of recognized options other than `-h`, each
given at most once and each value-taking option followed by its value token,
`get_configuration` returns 0 and every field is determined by its own option alone: the
field of every option that is present holds what that option sets (a path field is exactly
the value token, an integer field is `atoi` of the value token, which for a decimal numeral
of an `int` is that integer), and every field whose option is absent has its default (a
text buffer: what the caller passed in, since the function writes no default there). -/
theorem each_field_from_its_own_option (pc : Bool) (prog : String) (rank : Int)
    (fn gn fs fa : String) (os : List Opt) (hnodup : (os.map Opt.letter).Nodup) :
    ∃ cfg : Configuration,
      get_configuration pc (prog :: argsOf os) rank fn gn fs fa =
        some ⟨.returned 0 cfg, "", []⟩ ∧
      (∀ o ∈ os, o.holdsIn cfg) ∧
      (∀ n : Int, INT_MIN ≤ n → n ≤ INT_MAX →
        (Opt.k (toString n) ∈ os → cfg.key_index = n) ∧
        (Opt.l (toString n) ∈ os → cfg.weak_scale_test_length = n) ∧
        (Opt.t (toString n) ∈ os → cfg.local_sort_threads_num = n)) ∧
      ((∀ x, Opt.f x ∉ os) → cfg.filename = fn) ∧
      ((∀ x, Opt.g x ∉ os) → cfg.group_name = gn) ∧
      ((∀ x, Opt.o x ∉ os) → cfg.filename_sorted = fs) ∧
      ((∀ x, Opt.a x ∉ os) → cfg.filename_attribute = fa) ∧
      ((∀ x, Opt.k x ∉ os) → cfg.key_index = 1) ∧
      (Opt.s ∉ os → cfg.skew_data = 0) ∧
      (Opt.e ∉ os → cfg.sort_key_only = 0) ∧
      (Opt.v ∉ os → cfg.verbose = 0) ∧
      (Opt.m ∉ os → cfg.write_result = 1) ∧
      (Opt.c ∉ os → cfg.collect_data = 1) ∧
      ((∀ x, Opt.l x ∉ os) →
        cfg.weak_scale_test = 0 ∧ cfg.weak_scale_test_length = 1000000) ∧
      ((∀ x, Opt.t x ∉ os) →
        cfg.local_sort_threaded = 0 ∧ cfg.local_sort_threads_num = 16) := by
  refine ⟨os.foldl Opt.apply (defaults fn gn fs fa),
    get_configuration_argsOf pc prog os rank fn gn fs fa,
    fun o ho => holdsIn_of_mem_nodup os hnodup o ho _, ?_,
    fun h => frame_filename os h _, fun h => frame_group_name os h _,
    fun h => frame_filename_sorted os h _, fun h => frame_filename_attribute os h _,
    fun h => frame_key_index os h _, fun h => frame_skew_data os h _,
    fun h => frame_sort_key_only os h _, fun h => frame_verbose os h _,
    fun h => frame_write_result os h _, fun h => frame_collect_data os h _,
    fun h => frame_weak_scale os h _, fun h => frame_local_sort os h _⟩
  intro n hlo hhi
  refine ⟨fun h => ?_, fun h => ?_, fun h => ?_⟩
  · have := holdsIn_of_mem_nodup os hnodup _ h (defaults fn gn fs fa)
    exact this.trans (atoi_toString n hlo hhi)
  · have := holdsIn_of_mem_nodup os hnodup _ h (defaults fn gn fs fa)
    exact this.2.trans (atoi_toString n hlo hhi)
  · have := holdsIn_of_mem_nodup os hnodup _ h (defaults fn gn fs fa)
    exact this.2.trans (atoi_toString n hlo hhi)

/-- C2, witness: the scenario of the specification,
`-f a.h5 -g /g -o b.h5 -a c.attr -k 0 -s` at rank 0. -/
theorem each_field_from_its_own_option_witness :
    ([Opt.f "a.h5", Opt.g "/g", Opt.o "b.h5", Opt.a "c.attr", Opt.k "0", Opt.s].map
      Opt.letter).Nodup ∧
    (∃ cfg : Configuration,
      get_configuration false
        ["h5group-sorter", "-f", "a.h5", "-g", "/g", "-o", "b.h5", "-a", "c.attr", "-k", "0",
          "-s"] 0 "" "" "" "" = some ⟨.returned 0 cfg, "", []⟩ ∧
      cfg.filename = "a.h5" ∧ cfg.group_name = "/g" ∧ cfg.filename_sorted = "b.h5" ∧
      cfg.filename_attribute = "c.attr" ∧ cfg.key_index = 0 ∧ cfg.skew_data = 1 ∧
      cfg.sort_key_only = 0 ∧ cfg.verbose = 0 ∧ cfg.write_result = 1 ∧
      cfg.collect_data = 1 ∧ cfg.weak_scale_test = 0 ∧
      cfg.weak_scale_test_length = 1000000 ∧ cfg.local_sort_threaded = 0 ∧
      cfg.local_sort_threads_num = 16) := by
  refine ⟨by decide, ?_⟩
  obtain ⟨cfg, hres, hpres, hint, -, -, -, -, -, -, he, hv, hm, hc, hl, ht⟩ :=
    each_field_from_its_own_option false "h5group-sorter" 0 "" "" "" ""
      [Opt.f "a.h5", Opt.g "/g", Opt.o "b.h5", Opt.a "c.attr", Opt.k "0", Opt.s]
      (by decide)
  refine ⟨cfg, hres, hpres (Opt.f "a.h5") (by decide), hpres (Opt.g "/g") (by decide),
    hpres (Opt.o "b.h5") (by decide), hpres (Opt.a "c.attr") (by decide),
    (hint 0 (by decide) (by decide)).1 (by decide), hpres Opt.s (by decide),
    he (by decide), hv (by decide), hm (by decide), hc (by decide),
    (hl (by simp)).1, (hl (by simp)).2, (ht (by simp)).1, (ht (by simp)).2⟩

/-! ## C3 -/

/-- C3: for every option among `-f`, `-o`, `-a`, `-g`, `-k`, `-s`, `-e`, `-v`, `-m`, `-c`,
the argument vector that supplies that option exactly once (with its value token when it
takes one) and nothing else returns 0 with exactly the one corresponding field changed
(`-f`/`-o`/`-a`/`-g` give their path, `-k n` gives `key_index = n`, `-s`/`-e`/`-v` give
their flag `= 1`, `-m` gives `write_result = 0`, `-c` gives `collect_data = 0`) and every
other field as the defaults leave it. -/
theorem single_option_sets_one_field (pc : Bool) (prog : String) (rank : Int)
    (fn gn fs fa : String) :
    (∀ x, get_configuration pc [prog, "-f", x] rank fn gn fs fa =
      some ⟨.returned 0 { defaults fn gn fs fa with filename := x }, "", []⟩) ∧
    (∀ x, get_configuration pc [prog, "-o", x] rank fn gn fs fa =
      some ⟨.returned 0 { defaults fn gn fs fa with filename_sorted := x }, "", []⟩) ∧
    (∀ x, get_configuration pc [prog, "-a", x] rank fn gn fs fa =
      some ⟨.returned 0 { defaults fn gn fs fa with filename_attribute := x }, "", []⟩) ∧
    (∀ x, get_configuration pc [prog, "-g", x] rank fn gn fs fa =
      some ⟨.returned 0 { defaults fn gn fs fa with group_name := x }, "", []⟩) ∧
    (∀ n : Int, INT_MIN ≤ n → n ≤ INT_MAX →
      get_configuration pc [prog, "-k", toString n] rank fn gn fs fa =
        some ⟨.returned 0 { defaults fn gn fs fa with key_index := n }, "", []⟩) ∧
    get_configuration pc [prog, "-s"] rank fn gn fs fa =
      some ⟨.returned 0 { defaults fn gn fs fa with skew_data := 1 }, "", []⟩ ∧
    get_configuration pc [prog, "-e"] rank fn gn fs fa =
      some ⟨.returned 0 { defaults fn gn fs fa with sort_key_only := 1 }, "", []⟩ ∧
    get_configuration pc [prog, "-v"] rank fn gn fs fa =
      some ⟨.returned 0 { defaults fn gn fs fa with verbose := 1 }, "", []⟩ ∧
    get_configuration pc [prog, "-m"] rank fn gn fs fa =
      some ⟨.returned 0 { defaults fn gn fs fa with write_result := 0 }, "", []⟩ ∧
    get_configuration pc [prog, "-c"] rank fn gn fs fa =
      some ⟨.returned 0 { defaults fn gn fs fa with collect_data := 0 }, "", []⟩ := by
  refine ⟨fun x => get_configuration_argsOf pc prog [Opt.f x] rank fn gn fs fa,
    fun x => get_configuration_argsOf pc prog [Opt.o x] rank fn gn fs fa,
    fun x => get_configuration_argsOf pc prog [Opt.a x] rank fn gn fs fa,
    fun x => get_configuration_argsOf pc prog [Opt.g x] rank fn gn fs fa,
    fun n hlo hhi => ?_,
    get_configuration_argsOf pc prog [Opt.s] rank fn gn fs fa,
    get_configuration_argsOf pc prog [Opt.e] rank fn gn fs fa,
    get_configuration_argsOf pc prog [Opt.v] rank fn gn fs fa,
    get_configuration_argsOf pc prog [Opt.m] rank fn gn fs fa,
    get_configuration_argsOf pc prog [Opt.c] rank fn gn fs fa⟩
  have h := get_configuration_argsOf pc prog [Opt.k (toString n)] rank fn gn fs fa
  simp only [List.foldl_cons, List.foldl_nil, Opt.apply, atoi_toString n hlo hhi] at h
  exact h

/-- C3, witness: `-k 7` changes `key_index` alone. -/
theorem single_option_sets_one_field_witness :
    INT_MIN ≤ 7 ∧ 7 ≤ INT_MAX ∧
    get_configuration false ["h5group-sorter", "-k", "7"] 0 "" "" "" "" =
      some ⟨.returned 0 { defaults "" "" "" "" with key_index := 7 }, "", []⟩ :=
  ⟨by decide, by decide,
   (single_option_sets_one_field false "h5group-sorter" 0 "" "" "" "").2.2.2.2.1 7
     (by decide) (by decide)⟩

/-! ## C4 -/

/-- C4: for every integer `n` in the range of `int`, written in decimal, the vector
`-l n` returns 0 with `weak_scale_test = 1` and `weak_scale_test_length = n`, and the
vector `-t n` returns 0 with `local_sort_threaded = 1` and `local_sort_threads_num = n`;
in both cases every other field keeps its default. -/
theorem coupled_options_set_flag_and_value (pc : Bool) (prog : String) (rank : Int)
    (fn gn fs fa : String) (n : Int) (hlo : INT_MIN ≤ n) (hhi : n ≤ INT_MAX) :
    get_configuration pc [prog, "-l", toString n] rank fn gn fs fa =
      some ⟨.returned 0
        { defaults fn gn fs fa with weak_scale_test := 1, weak_scale_test_length := n },
        "", []⟩ ∧
    get_configuration pc [prog, "-t", toString n] rank fn gn fs fa =
      some ⟨.returned 0
        { defaults fn gn fs fa with local_sort_threaded := 1, local_sort_threads_num := n },
        "", []⟩ := by
  have h1 := get_configuration_argsOf pc prog [Opt.l (toString n)] rank fn gn fs fa
  have h2 := get_configuration_argsOf pc prog [Opt.t (toString n)] rank fn gn fs fa
  simp only [List.foldl_cons, List.foldl_nil, Opt.apply, atoi_toString n hlo hhi] at h1 h2
  exact ⟨h1, h2⟩

/-- C4, witness: `-l 500` and `-t 4`. -/
theorem coupled_options_set_flag_and_value_witness :
    (INT_MIN ≤ 500 ∧ 500 ≤ INT_MAX ∧
      get_configuration false ["h5group-sorter", "-l", "500"] 0 "" "" "" "" =
        some ⟨.returned 0
          { defaults "" "" "" "" with weak_scale_test := 1, weak_scale_test_length := 500 },
          "", []⟩) ∧
    (INT_MIN ≤ 4 ∧ 4 ≤ INT_MAX ∧
      get_configuration false ["h5group-sorter", "-t", "4"] 0 "" "" "" "" =
        some ⟨.returned 0
          { defaults "" "" "" "" with local_sort_threaded := 1, local_sort_threads_num := 4 },
          "", []⟩) :=
  ⟨⟨by decide, by decide,
    (coupled_options_set_flag_and_value false "h5group-sorter" 0 "" "" "" "" 500
      (by decide) (by decide)).1⟩,
   ⟨by decide, by decide,
    (coupled_options_set_flag_and_value false "h5group-sorter" 0 "" "" "" "" 4
      (by decide) (by decide)).2⟩⟩

/-! ## C5 -/

/-- C5: last write wins.  In a vector of recognized options other than `-h` that supplies
an option a first time (`first`) and later again (`last`, same option character, possibly
another value) and not again after that, the call returns 0 and the field holds the value
of the later occurrence: there is no accumulation and no duplicate error.  For `-k`, `-l`,
`-t` with a decimal numeral of an `int` the field is that integer. -/
theorem last_occurrence_wins (pc : Bool) (prog : String) (rank : Int)
    (fn gn fs fa : String) (xs ys zs : List Opt) (first last : Opt)
    (hsame : first.letter = last.letter)
    (hzs : ∀ o ∈ zs, o.letter ≠ last.letter) :
    ∃ cfg : Configuration,
      get_configuration pc (prog :: argsOf (xs ++ first :: ys ++ last :: zs)) rank
        fn gn fs fa = some ⟨.returned 0 cfg, "", []⟩ ∧
      last.holdsIn cfg ∧
      (∀ n : Int, INT_MIN ≤ n → n ≤ INT_MAX →
        (last = Opt.k (toString n) → cfg.key_index = n) ∧
        (last = Opt.l (toString n) → cfg.weak_scale_test_length = n) ∧
        (last = Opt.t (toString n) → cfg.local_sort_threads_num = n)) := by
  have hold : last.holdsIn
      ((xs ++ first :: ys ++ last :: zs).foldl Opt.apply (defaults fn gn fs fa)) := by
    have := holdsIn_last (xs ++ first :: ys) zs last hzs (defaults fn gn fs fa)
    simpa using this
  refine ⟨_, get_configuration_argsOf pc prog _ rank fn gn fs fa, hold, ?_⟩
  intro n hlo hhi
  refine ⟨fun h => ?_, fun h => ?_, fun h => ?_⟩
  · subst h; exact hold.trans (atoi_toString n hlo hhi)
  · subst h; exact hold.2.trans (atoi_toString n hlo hhi)
  · subst h; exact hold.2.trans (atoi_toString n hlo hhi)

/-- C5, witness: `-k 2 -k 5` yields `key_index = 5`. -/
theorem last_occurrence_wins_witness :
    (Opt.k "2").letter = (Opt.k "5").letter ∧
    (∀ o ∈ ([] : List Opt), o.letter ≠ (Opt.k "5").letter) ∧
    ∃ cfg : Configuration,
      get_configuration false ["h5group-sorter", "-k", "2", "-k", "5"] 0 "" "" "" "" =
        some ⟨.returned 0 cfg, "", []⟩ ∧ cfg.key_index = 5 := by
  obtain ⟨cfg, hres, -, hint⟩ :=
    last_occurrence_wins false "h5group-sorter" 0 "" "" "" "" [] [] [] (Opt.k "2")
      (Opt.k "5") rfl (by decide)
  exact ⟨rfl, by decide, cfg, hres, (hint 5 (by decide) (by decide)).1 rfl⟩

/-! ## One option character -/

theorem options_data :
    options.data =
      ['f', ':', 'o', ':', 'a', ':', 'g', ':', 'k', ':', 'h', 's', 'v', 'e', 'm', 'l', ':',
        't', ':', 'c'] := rfl

/-- A character that is no option character makes `getopt` return `'?'`. -/
theorem shortOption_unrecognized (c : Char) (cs : List Char) (rest : List String)
    (hc : c ∉ optionCharacters) :
    shortOption options.data c cs rest =
      ⟨some '?', none, ⟨cs, rest⟩, [.invalidOption c]⟩ := by
  by_cases hcolon : c = ':'
  · subst hcolon; rfl
  · simp only [optionCharacters, List.mem_cons, List.mem_singleton, List.not_mem_nil,
      not_or, or_false] at hc
    obtain ⟨h1, h2, h3, h4, h5, h6, h7, h8, h9, h10, h11, h12, h13⟩ := hc
    have hs : strchr options.data c = none := by
      rw [options_data]
      simp [strchr, Ne.symm h1, Ne.symm h2, Ne.symm h3, Ne.symm h4, Ne.symm h5, Ne.symm h6,
        Ne.symm h7, Ne.symm h8, Ne.symm h9, Ne.symm h10, Ne.symm h11, Ne.symm h12,
        Ne.symm h13, Ne.symm hcolon]
    simp only [shortOption, hs]

/-- An option character without `:` is returned and the scan stays in its element. -/
theorem shortOption_flag (c : Char) (cs : List Char) (rest : List String)
    (hc : c ∈ optionCharacters) (hv : c ∉ valueCharacters) :
    shortOption options.data c cs rest = ⟨some c, none, ⟨cs, rest⟩, []⟩ := by
  simp only [optionCharacters, List.mem_cons, List.mem_singleton, List.not_mem_nil,
    or_false] at hc
  rcases hc with h | h | h | h | h | h | h | h | h | h | h | h | h <;> subst h <;>
    first
    | rfl
    | exact absurd (by decide) hv

/-- An option character with `:` followed by more characters takes them as its value. -/
theorem shortOption_attached (c x : Char) (xs : List Char) (rest : List String)
    (hv : c ∈ valueCharacters) :
    shortOption options.data c (x :: xs) rest =
      ⟨some c, some (String.mk (x :: xs)), ⟨[], rest⟩, []⟩ := by
  simp only [valueCharacters, List.mem_cons, List.mem_singleton, List.not_mem_nil,
    or_false] at hv
  rcases hv with h | h | h | h | h | h | h <;> subst h <;> rfl

/-- An option character with `:` at the end of its element takes the next element. -/
theorem shortOption_separate (c : Char) (a : String) (rest : List String)
    (hv : c ∈ valueCharacters) :
    shortOption options.data c [] (a :: rest) = ⟨some c, some a, ⟨[], rest⟩, []⟩ := by
  simp only [valueCharacters, List.mem_cons, List.mem_singleton, List.not_mem_nil,
    or_false] at hv
  rcases hv with h | h | h | h | h | h | h <;> subst h <;> rfl

/-- An option character with `:` at the very end of the vector: `getopt` returns `'?'`. -/
theorem shortOption_missing (c : Char) (hv : c ∈ valueCharacters) :
    shortOption options.data c [] [] =
      ⟨some '?', none, ⟨[], []⟩, [.requiresArgument c]⟩ := by
  simp only [valueCharacters, List.mem_cons, List.mem_singleton, List.not_mem_nil,
    or_false] at hv
  rcases hv with h | h | h | h | h | h | h <;> subst h <;> rfl

theorem valueCharacters_sub (c : Char) (hv : c ∈ valueCharacters) :
    c ∈ optionCharacters := by
  simp only [valueCharacters, List.mem_cons, List.mem_singleton, List.not_mem_nil,
    or_false] at hv
  rcases hv with h | h | h | h | h | h | h <;> subst h <;> decide

/-- The `default` case is reached exactly by the characters that are no case label. -/
theorem switch_unrecognized (rank : Int) (c : Char) (optarg : Option String)
    (cfg : Configuration) (hc : c ∉ optionCharacters) :
    switch rank c optarg cfg = .quit (-1) ("Error option [" ++ showString optarg ++ "]\n") := by
  simp only [optionCharacters, List.mem_cons, List.mem_singleton, List.not_mem_nil,
    not_or, or_false] at hc
  obtain ⟨h1, h2, h3, h4, h5, h6, h7, h8, h9, h10, h11, h12, h13⟩ := hc
  simp only [switch, h1, h2, h3, h4, h5, h6, h7, h8, h9, h10, h11, h12, h13, if_false]

/-- A flag other than `-h`, or a value-taking option with its value, never leaves the
loop. -/
theorem switch_recognized (rank : Int) (c : Char) (optarg : Option String)
    (cfg : Configuration) (hc : c ∈ optionCharacters)
    (harg : c ∈ valueCharacters → optarg.isSome = true) :
    (∃ cfg', switch rank c optarg cfg = .next cfg') ∨
      (c = 'h' ∧ switch rank c optarg cfg = .ret 1 (if rank = 0 then print_help else "")) := by
  simp only [optionCharacters, List.mem_cons, List.mem_singleton, List.not_mem_nil,
    or_false] at hc
  rcases hc with h | h | h | h | h | h | h | h | h | h | h | h | h <;> subst h <;>
    first
    | exact Or.inr ⟨rfl, rfl⟩
    | exact Or.inl ⟨_, rfl⟩
    | (obtain ⟨a, rfl⟩ := Option.isSome_iff_exists.1 (harg (by decide))
       exact Or.inl ⟨_, rfl⟩)

/-! ## The first element after the applied options -/

/-- At an option element `-c...` other than `--`, `getopt` handles the character `c`. -/
theorem getopt_element (pc : Bool) (os : String) (a : String) (c : Char) (cs : List Char)
    (rest : List String) (ha : a.data = '-' :: c :: cs) (hne : a ≠ "--") :
    getopt pc os ⟨[], a :: rest⟩ = shortOption os.data c cs rest := by
  have hnon : NONOPTION_P a = false := by simp [NONOPTION_P, ha]
  cases pc <;> simp [getopt, skipNonoptions, hnon, hne, ha]

theorem mk_ne_dashdash (c : Char) (cs : List Char) (h : ¬(c = '-' ∧ cs = [])) :
    String.mk ('-' :: c :: cs) ≠ "--" := by
  intro e
  have e' : '-' :: c :: cs = ['-', '-'] := congrArg String.data e
  simp only [List.cons.injEq, true_and] at e'
  exact h e'

/-- The scan stops at `-h`: the call returns 1 and the help text is printed by rank 0
alone. -/
theorem run_help (pc : Bool) (rank : Int) (post : List String) (cfg : Configuration)
    (err : List GetoptDiagnostic) :
    run pc rank ⟨[], "-h" :: post⟩ cfg err =
      some ⟨.returned 1 cfg, if rank = 0 then print_help else "", err⟩ := by
  have hg : getopt pc options ⟨[], "-h" :: post⟩ = ⟨some 'h', none, ⟨[], post⟩, []⟩ := by
    cases pc <;> rfl
  have hs : switch rank 'h' none cfg = .ret 1 (if rank = 0 then print_help else "") := rfl
  rw [run_step, hg]
  simp only [hs, List.append_nil]

/-- The scan stops at an element whose first option character is unrecognized: the
process exits after `printf` has shown the null `optarg`. -/
theorem run_unrecognized (pc : Bool) (rank : Int) (c : Char) (cs : List Char)
    (post : List String) (cfg : Configuration) (err : List GetoptDiagnostic)
    (hc : c ∉ optionCharacters) (hdd : ¬(c = '-' ∧ cs = [])) :
    run pc rank ⟨[], String.mk ('-' :: c :: cs) :: post⟩ cfg err =
      some ⟨.exited (-1), "Error option [(null)]\n", err ++ [.invalidOption c]⟩ := by
  have hq : '?' ∉ optionCharacters := by decide
  rw [run_step, getopt_element pc options _ c cs post rfl (mk_ne_dashdash c cs hdd),
    shortOption_unrecognized c cs post hc]
  simp only [switch_unrecognized rank '?' none cfg hq]
  rfl

/-! ## C6 -/

/-- C6: for every argument vector that is made of recognized options with their values
and contains `-h` (the options before the first `-h` are `pre`, what follows it is
`post`), and for every rank, `get_configuration` returns 1, with the options before
`-h` applied, the same for every rank; what it writes to standard output is the help text
if `mpi_rank = 0` and nothing at all for any other rank, and the help text is not
empty. -/
theorem help_returns_one_and_prints_at_rank_zero (pc : Bool) (prog : String)
    (pre : List Opt) (post : List String) (rank : Int) (fn gn fs fa : String) :
    get_configuration pc (prog :: (argsOf pre ++ "-h" :: post)) rank fn gn fs fa =
      some ⟨.returned 1 (pre.foldl Opt.apply (defaults fn gn fs fa)),
        if rank = 0 then print_help else "", []⟩ ∧
    print_help ≠ "" := by
  refine ⟨?_, by decide⟩
  rw [get_configuration_eq_run]
  show run pc rank ⟨[], argsOf pre ++ "-h" :: post⟩ _ [] = _
  rw [run_argsOf, run_help]

/-! ## C7 -/

set_option maxRecDepth 1000000 in
/-- C7, counterexample: the help text does not contain the usage example as the claim
spells it, with single blanks throughout. -/
theorem help_text_lacks_single_spaced_example :
    ¬ ("./h5group-sorter -f testf.h5p -g /testg -o testg-sorted.h5p -a testf.attribute -k 0".data
        <:+: print_help.data) := by
  decide

set_option maxRecDepth 1000000 in
/-- C7, amended: the help text of `print_help` contains the program name `h5group-sorter`
and contains, character for character, the usage example
`./h5group-sorter -f testf.h5p  -g /testg  -o testg-sorted.h5p -a testf.attribute -k 0`,
in which two blanks stand before `-g` and before `-o`. -/
theorem help_text_contains_name_and_example :
    "h5group-sorter".data <:+: print_help.data ∧
    "./h5group-sorter -f testf.h5p  -g /testg  -o testg-sorted.h5p -a testf.attribute -k 0".data
      <:+: print_help.data := by
  decide

/-! ## What makes the scan fatal -/

theorem run_eq_continueWith (pc : Bool) (rank : Int) (st : GetoptState)
    (cfg : Configuration) (err : List GetoptDiagnostic) :
    run pc rank st cfg err = continueWith pc rank cfg err (getopt pc options st) :=
  run_step pc rank st cfg err

theorem skipNonoptions_suffix (rest : List String) : skipNonoptions rest <:+ rest := by
  induction rest with
  | nil => exact List.suffix_refl _
  | cons a rest ih =>
    unfold skipNonoptions
    split
    · exact ih.trans (List.suffix_cons a rest)
    · exact List.suffix_refl _

theorem getLast?_of_suffix {α : Type} (l1 l2 : List α) (h : l1 <:+ l2) (hne : l1 ≠ []) :
    l2.getLast? = l1.getLast? := by
  obtain ⟨t, rfl⟩ := h
  induction t with
  | nil => rfl
  | cons x t ih =>
    cases hl : t ++ l1 with
    | nil => simp [hne] at hl
    | cons y ys =>
      rw [List.cons_append, hl, List.getLast?_cons_cons, ← hl]
      exact ih

/-- The part of the induction that deals with one option character `c` of an element. -/
theorem continueWith_shortOption (pc : Bool) (rank : Int) (c : Char) (cs : List Char)
    (rest : List String)
    (ih : ∀ st' : GetoptState, remaining st' ≤ cs.length + weight rest →
      ∀ cfg err, ∃ r, run pc rank st' cfg err = some r ∧
        ∀ status, r.outcome = .exited status → FatalCause st')
    (cfg : Configuration) (err : List GetoptDiagnostic) :
    ∃ r, continueWith pc rank cfg err (shortOption options.data c cs rest) = some r ∧
      ∀ status, r.outcome = .exited status → FatalCause ⟨c :: cs, rest⟩ := by
  by_cases hc : c ∈ optionCharacters
  · by_cases hv : c ∈ valueCharacters
    · have hsw : ∀ a, ∃ cfg', switch rank c (some a) cfg = .next cfg' := by
        intro a
        rcases switch_recognized rank c (some a) cfg hc (fun _ => rfl) with h | ⟨h, -⟩
        · exact h
        · subst h; exact absurd hv (by decide)
      cases cs with
      | cons x xs =>
        obtain ⟨cfg', hcfg'⟩ := hsw (String.mk (x :: xs))
        obtain ⟨r, hr, hcause⟩ := ih ⟨[], rest⟩ (by simp [remaining, weight]) cfg' err
        refine ⟨r, ?_, fun status hs => ?_⟩
        · simp only [continueWith, shortOption_attached c x xs rest hv, hcfg', List.append_nil]
          exact hr
        · rcases hcause status hs with ⟨y, hy, -⟩ | h | ⟨-, y, hy, -⟩ | h
          · exact absurd hy (List.not_mem_nil _)
          · exact Or.inr (Or.inl h)
          · simp at hy
          · exact Or.inr (Or.inr (Or.inr h))
      | nil =>
        cases rest with
        | nil =>
          have hq : '?' ∉ optionCharacters := by decide
          have h1 : continueWith pc rank cfg err (shortOption options.data c [] []) =
              some ⟨.exited (-1), "Error option [(null)]\n", err ++ [.requiresArgument c]⟩ := by
            simp only [continueWith, shortOption_missing c hv,
              switch_unrecognized rank '?' none cfg hq]
            rfl
          exact ⟨_, h1, fun status _ => Or.inr (Or.inr (Or.inl ⟨rfl, c, rfl, hv⟩))⟩
        | cons a rest' =>
          obtain ⟨cfg', hcfg'⟩ := hsw a
          obtain ⟨r, hr, hcause⟩ := ih ⟨[], rest'⟩
            (by simp only [remaining, weight_cons, weight]; simp) cfg' err
          refine ⟨r, ?_, fun status hs => ?_⟩
          · simp only [continueWith, shortOption_separate c a rest' hv, hcfg',
              List.append_nil]
            exact hr
          · rcases hcause status hs with ⟨y, hy, -⟩ | ⟨b, hb, hb'⟩ | ⟨-, y, hy, -⟩ |
              ⟨b, hb, hb'⟩
            · exact absurd hy (List.not_mem_nil _)
            · exact Or.inr (Or.inl ⟨b, List.mem_cons_of_mem _ hb, hb'⟩)
            · simp at hy
            · refine Or.inr (Or.inr (Or.inr ⟨b, ?_, hb'⟩))
              have hne : rest' ≠ [] := by
                intro e; rw [e] at hb; simp at hb
              rw [getLast?_of_suffix rest' (a :: rest') (List.suffix_cons a rest') hne]
              exact hb
    · have hg := shortOption_flag c cs rest hc hv
      rcases switch_recognized rank c none cfg hc (fun h => absurd h hv) with
        ⟨cfg', hcfg'⟩ | ⟨-, hret⟩
      · obtain ⟨r, hr, hcause⟩ := ih ⟨cs, rest⟩ (by simp [remaining, weight]) cfg' err
        refine ⟨r, ?_, fun status hs => ?_⟩
        · simp only [continueWith, hg, hcfg', List.append_nil]
          exact hr
        · rcases hcause status hs with ⟨y, hy, hy'⟩ | h | ⟨hrest, y, hy, hy'⟩ | h
          · exact Or.inl ⟨y, List.mem_cons_of_mem _ hy, hy'⟩
          · exact Or.inr (Or.inl h)
          · refine Or.inr (Or.inr (Or.inl ⟨hrest, y, ?_, hy'⟩))
            have hne : cs ≠ [] := by
              intro e; rw [e] at hy; simp at hy
            rw [getLast?_of_suffix cs (c :: cs) (List.suffix_cons c cs) hne]
            exact hy
          · exact Or.inr (Or.inr (Or.inr h))
      · have h1 : continueWith pc rank cfg err (shortOption options.data c cs rest) =
            some ⟨.returned 1 cfg, if rank = 0 then print_help else "", err⟩ := by
          simp only [continueWith, hg, hret, List.append_nil]
        exact ⟨_, h1, fun status hs => by simp at hs⟩
  · have hq : '?' ∉ optionCharacters := by decide
    have h1 : continueWith pc rank cfg err (shortOption options.data c cs rest) =
        some ⟨.exited (-1), "Error option [(null)]\n", err ++ [.invalidOption c]⟩ := by
      simp only [continueWith, shortOption_unrecognized c cs rest hc,
        switch_unrecognized rank '?' none cfg hq]
      rfl
    exact ⟨_, h1, fun status _ => Or.inl ⟨c, List.mem_cons_self _ _, hc⟩⟩

theorem fatalCause_of_element (rest rest' : List String) (a : String) (c : Char)
    (cs : List Char) (hsuf : a :: rest' <:+ rest) (ha : a.data = '-' :: c :: cs)
    (h : FatalCause ⟨c :: cs, rest'⟩) : FatalCause ⟨[], rest⟩ := by
  have hlast : rest.getLast? = (a :: rest').getLast? :=
    getLast?_of_suffix _ _ hsuf (List.cons_ne_nil _ _)
  rcases h with ⟨y, hy, hy'⟩ | ⟨b, hb, hb'⟩ | ⟨hrest', y, hy, hy'⟩ | ⟨b, hb, hb'⟩
  · refine Or.inr (Or.inl ⟨a, hsuf.subset (List.mem_cons_self _ _), ?_, y, ?_, hy'⟩)
    · rw [ha]; rfl
    · rw [ha]; exact hy
  · exact Or.inr (Or.inl ⟨b, hsuf.subset (List.mem_cons_of_mem _ hb), hb'⟩)
  · refine Or.inr (Or.inr (Or.inr ⟨a, ?_, ?_, y, ?_, hy'⟩))
    · have e : rest' = [] := hrest'
      rw [hlast, e]; rfl
    · rw [ha]; rfl
    · rw [ha]; exact hy
  · refine Or.inr (Or.inr (Or.inr ⟨b, ?_, hb'⟩))
    have hb2 : rest'.getLast? = some b := hb
    have hne : rest' ≠ [] := by
      intro e; rw [e] at hb2; simp at hb2
    rw [hlast, getLast?_of_suffix rest' (a :: rest') (List.suffix_cons a rest') hne]
    exact hb2

/-- From every scanning position the loop ends with a result, and it ends in `exit` only
for one of the causes of `FatalCause`. -/
theorem run_fatal_cause (pc : Bool) (rank : Int) :
    ∀ (n : Nat) (st : GetoptState), remaining st < n →
      ∀ (cfg : Configuration) (err : List GetoptDiagnostic),
        ∃ r, run pc rank st cfg err = some r ∧
          ∀ status, r.outcome = .exited status → FatalCause st := by
  intro n
  induction n with
  | zero => intro st h; omega
  | succ n ih =>
    intro st hst cfg err
    obtain ⟨nc, rest⟩ := st
    rw [run_eq_continueWith]
    cases nc with
    | cons c cs =>
      have hg : getopt pc options ⟨c :: cs, rest⟩ = shortOption options.data c cs rest := rfl
      rw [hg]
      apply continueWith_shortOption
      intro st' hst'
      apply ih
      simp only [remaining, List.length_cons] at hst
      simp only [weight] at hst'
      omega
    | nil =>
      have hsuf : (if pc = true then rest else skipNonoptions rest) <:+ rest := by
        cases pc
        · simpa using skipNonoptions_suffix rest
        · simp
      have hw : weight (if pc = true then rest else skipNonoptions rest) ≤ weight rest := by
        cases pc
        · simpa using weight_skipNonoptions rest
        · simp
      have hret : ∀ g : GetoptResult, g.c = none →
          ∃ r, continueWith pc rank cfg err g = some r ∧
            ∀ status, r.outcome = .exited status → FatalCause ⟨[], rest⟩ := by
        intro g hg
        refine ⟨⟨.returned 0 cfg, "", err ++ g.err⟩, ?_, fun status hs => by simp at hs⟩
        simp only [continueWith, hg]
      simp only [getopt]
      generalize (if pc = true then rest else skipNonoptions rest) = eff at hsuf hw
      cases eff with
      | nil => exact hret _ rfl
      | cons a rest' =>
        simp only
        by_cases ha : a = "--"
        · simp only [ha, if_true]
          exact hret _ rfl
        · simp only [ha, if_false]
          split
          · rename_i c cs heq
            have hstep := continueWith_shortOption pc rank c cs rest'
              (by
                intro st' hst'
                apply ih
                rw [weight_cons, heq] at hw
                simp only [remaining, List.length_nil, List.length_cons] at hst
                simp only [weight, List.length_cons] at hst' hw
                omega) cfg err
            obtain ⟨r, hr, hcause⟩ := hstep
            exact ⟨r, hr, fun status hs =>
              fatalCause_of_element rest rest' a c cs hsuf heq (hcause status hs)⟩
          · exact hret _ rfl

/-- For every argument vector the call ends with a result in the model: the loop
terminates and no null `optarg` reaches `strcpy` or `atoi`. -/
theorem get_configuration_total (pc : Bool) (argv : List String) (rank : Int)
    (fn gn fs fa : String) :
    ∃ r, get_configuration pc argv rank fn gn fs fa = some r := by
  obtain ⟨r, hr, -⟩ := run_fatal_cause pc rank _ ⟨[], argv.drop 1⟩ (Nat.lt_succ_self _)
    (defaults fn gn fs fa) []
  exact ⟨r, hr⟩

/-- The only `return` inside the `switch` is `return 1`. -/
theorem switch_ret_code (rank : Int) (c : Char) (optarg : Option String)
    (cfg : Configuration) (code : Int) (out : String)
    (h : switch rank c optarg cfg = .ret code out) : code = 1 := by
  by_cases hc : c ∈ optionCharacters
  · simp only [optionCharacters, List.mem_cons, List.mem_singleton, List.not_mem_nil,
      or_false] at hc
    rcases hc with e | e | e | e | e | e | e | e | e | e | e | e | e <;> subst e <;>
      first
      | (cases h; rfl)
      | (cases h)
      | (cases optarg <;> cases h)
  · rw [switch_unrecognized rank c optarg cfg hc] at h
    cases h

/-- A call that returns, returns 0 or 1. -/
theorem loop_returned_code (pc : Bool) (rank : Int) :
    ∀ (fuel : Nat) (st : GetoptState) (cfg : Configuration) (err : List GetoptDiagnostic)
      (r : Result), loop pc rank fuel st cfg err = some r →
      ∀ code cfg', r.outcome = .returned code cfg' → code = 0 ∨ code = 1 := by
  intro fuel
  induction fuel with
  | zero => intro st cfg err r h; simp [loop] at h
  | succ fuel ih =>
    intro st cfg err r h code cfg' hout
    simp only [loop] at h
    cases hc : (getopt pc options st).c with
    | none =>
      rw [hc] at h
      cases h
      cases hout
      exact Or.inl rfl
    | some c =>
      rw [hc] at h
      simp only at h
      cases hs : switch rank c (getopt pc options st).optarg cfg with
      | next cfg2 =>
        rw [hs] at h
        exact ih _ _ _ r h code cfg' hout
      | ret code2 out =>
        rw [hs] at h
        cases h
        cases hout
        exact Or.inr (switch_ret_code rank c _ cfg _ out hs)
      | quit status out =>
        rw [hs] at h
        cases h
        cases hout
      | undefined =>
        rw [hs] at h
        cases h

/-! ## C8 -/

/-- C8, counterexample: the vector `-h -z` contains the unrecognized option token `-z`,
yet the call does not end in `exit`: the scan stops at `-h` and the call returns 1. -/
theorem unrecognized_after_help_not_fatal :
    'z' ∉ optionCharacters ∧
    get_configuration false ["h5group-sorter", "-h", "-z"] 1 "" "" "" "" =
      some ⟨.returned 1 (defaults "" "" "" ""), "", []⟩ ∧
    get_configuration true ["h5group-sorter", "-h", "-z"] 1 "" "" "" "" =
      some ⟨.returned 1 (defaults "" "" "" ""), "", []⟩ := by
  decide

/-- C8, amended: for every argument vector in which an unrecognized option token (`-`
followed by a character that is no option character, for example `-z`; the token is not
`--`) is preceded only by recognized options other than `-h`, each with its value token,
and for every rank, `get_configuration` never returns a configuration: the process is
ended by `exit (-1)`, a non-zero status. -/
theorem fatal_at_first_unrecognized_option (pc : Bool) (prog : String) (pre : List Opt)
    (c : Char) (cs : List Char) (post : List String) (rank : Int) (fn gn fs fa : String)
    (hc : c ∉ optionCharacters) (hdd : ¬(c = '-' ∧ cs = [])) :
    get_configuration pc (prog :: (argsOf pre ++ String.mk ('-' :: c :: cs) :: post)) rank
        fn gn fs fa =
      some ⟨.exited (-1), "Error option [(null)]\n", [.invalidOption c]⟩ ∧
    (-1 : Int) ≠ 0 := by
  refine ⟨?_, by decide⟩
  rw [get_configuration_eq_run]
  show run pc rank ⟨[], argsOf pre ++ String.mk ('-' :: c :: cs) :: post⟩ _ [] = _
  rw [run_argsOf, run_unrecognized pc rank c cs post _ [] hc hdd]
  rfl

/-- C8, witness: `-k 3 -z -h` at rank 0. -/
theorem fatal_at_first_unrecognized_option_witness :
    'z' ∉ optionCharacters ∧ ¬('z' = '-' ∧ ([] : List Char) = []) ∧
    get_configuration false ["h5group-sorter", "-k", "3", "-z", "-h"] 0 "" "" "" "" =
      some ⟨.exited (-1), "Error option [(null)]\n", [.invalidOption 'z']⟩ :=
  ⟨by decide, by decide,
   (fatal_at_first_unrecognized_option false "h5group-sorter" [Opt.k "3"] 'z' [] ["-h"] 0
     "" "" "" "" (by decide) (by decide)).1⟩

/-! ## C9 -/

/-- C9, the code at the failing input `-z`: the message that `get_configuration` writes
before `exit` is `Error option [(null)]`, because `optarg` is null when `getopt` returns
`'?'`; the message holds neither the token `-z` nor the character `z`.  Only the
diagnostic of `getopt` itself, on standard error, carries the character. -/
theorem error_message_omits_offending_option :
    get_configuration false ["h5group-sorter", "-z"] 0 "" "" "" "" =
      some ⟨.exited (-1), "Error option [(null)]\n", [.invalidOption 'z']⟩ ∧
    'z' ∉ "Error option [(null)]\n".data ∧
    ¬ ("-z".data <:+: "Error option [(null)]\n".data) := by
  decide

/-! ## C10 -/

/-- C10, counterexample: the vector `-k` is built from a recognized option character
only, yet the call ends in `exit`: `getopt` returns `'?'` because the value of `-k` is
missing, and the `default` case is taken. -/
theorem missing_value_is_fatal :
    'k' ∈ optionCharacters ∧
    get_configuration false ["h5group-sorter", "-k"] 0 "" "" "" "" =
      some ⟨.exited (-1), "Error option [(null)]\n", [.requiresArgument 'k']⟩ ∧
    get_configuration true ["h5group-sorter", "-k"] 0 "" "" "" "" =
      some ⟨.exited (-1), "Error option [(null)]\n", [.requiresArgument 'k']⟩ := by
  decide

/-- C10, amended: there are two failures, an unrecognized option character and a missing
value.  For every argument vector the call ends with a result, and if it ends in `exit`
then the vector contains an option token with a character that is not one of `f`, `o`,
`a`, `g`, `k`, `h`, `s`, `v`, `e`, `m`, `l`, `t`, `c`, or its last token is an option
token that ends in one of the value-taking option characters `f`, `o`, `a`, `g`, `k`,
`l`, `t` (the value is missing); every other vector makes the call return 0 or 1. -/
theorem fatal_only_by_unrecognized_or_missing_value (pc : Bool) (prog : String)
    (args : List String) (rank : Int) (fn gn fs fa : String) :
    ∃ r, get_configuration pc (prog :: args) rank fn gn fs fa = some r ∧
      (∀ status, r.outcome = .exited status →
        (∃ a ∈ args, hasUnrecognizedCharacter a) ∨
        (∃ a, args.getLast? = some a ∧ endsInValueOption a)) ∧
      (∀ code cfg, r.outcome = .returned code cfg → code = 0 ∨ code = 1) := by
  obtain ⟨r, hr, hcause⟩ := run_fatal_cause pc rank _ ⟨[], args⟩ (Nat.lt_succ_self _)
    (defaults fn gn fs fa) []
  refine ⟨r, hr, fun status hs => ?_, loop_returned_code pc rank _ _ _ _ r hr⟩
  rcases hcause status hs with ⟨y, hy, -⟩ | h | ⟨-, y, hy, -⟩ | h
  · exact absurd hy (List.not_mem_nil _)
  · exact Or.inl h
  · simp at hy
  · exact Or.inr h

/-- C10, witness: `-s -k` ends in `exit`, and its last token `-k` ends in a value-taking
option character. -/
theorem fatal_only_by_unrecognized_or_missing_value_witness :
    ∃ r, get_configuration false ["h5group-sorter", "-s", "-k"] 0 "" "" "" "" = some r ∧
      r.outcome = .exited (-1) ∧
      ((∃ a ∈ ["-s", "-k"], hasUnrecognizedCharacter a) ∨
        (∃ a, ["-s", "-k"].getLast? = some a ∧ endsInValueOption a)) := by
  obtain ⟨r, hr, hcause, -⟩ :=
    fatal_only_by_unrecognized_or_missing_value false "h5group-sorter" ["-s", "-k"] 0
      "" "" "" ""
  have hval : get_configuration false ["h5group-sorter", "-s", "-k"] 0 "" "" "" "" =
      some ⟨.exited (-1), "Error option [(null)]\n", [.requiresArgument 'k']⟩ := by decide
  have hout : r.outcome = .exited (-1) := by
    rw [hval] at hr
    cases hr
    rfl
  exact ⟨r, hr, hout, hcause (-1) hout⟩

/-! ## `atoi` on arbitrary tokens -/

theorem skipSpace_eq_dropWhile (s : List Char) : skipSpace s = s.dropWhile isspace := by
  induction s with
  | nil => rfl
  | cons c cs ih =>
    by_cases h : isspace c = true
    · simp [skipSpace, List.dropWhile, h, ih]
    · simp [skipSpace, List.dropWhile, h]

theorem skipSpace_append (ws r : List Char) (h : ∀ c ∈ ws, isspace c = true) :
    skipSpace (ws ++ r) = skipSpace r := by
  induction ws with
  | nil => rfl
  | cons c cs ih =>
    have hc := h c (List.mem_cons_self _ _)
    simp only [List.cons_append, skipSpace, hc, if_true]
    exact ih fun x hx => h x (List.mem_cons_of_mem _ hx)

theorem digitsValue_of_no_digit (acc : Nat) (s : List Char)
    (h : ∀ c, s.head? = some c → isdigit c = false) : digitsValue acc s = acc := by
  cases s with
  | nil => rfl
  | cons c cs => simp [digitsValue, h c rfl]

theorem clampLong_zero : clampLong 0 = 0 := by decide

/-- Without a digit after the white space and the sign, `strtol` yields 0. -/
theorem strtol10_of_no_digit (s : List Char)
    (h : ∀ c, (dropSign (s.dropWhile isspace)).head? = some c → isdigit c = false) :
    strtol10 s = 0 := by
  unfold strtol10
  rw [skipSpace_eq_dropWhile]
  generalize s.dropWhile isspace = s' at h
  split
  · rename_i cs
    have : digitsValue 0 cs = 0 := digitsValue_of_no_digit 0 cs h
    simp [this, clampLong_zero]
  · rename_i cs
    have : digitsValue 0 cs = 0 := digitsValue_of_no_digit 0 cs h
    simp [this, clampLong_zero]
  · rename_i hm hp
    have hds : dropSign s' = s' := by
      unfold dropSign
      split
      · exact absurd rfl (hm _)
      · exact absurd rfl (hp _)
      · rfl
    rw [hds] at h
    have : digitsValue 0 s' = 0 := digitsValue_of_no_digit 0 s' h
    simp [this, clampLong_zero]

theorem toDigitsCore_append (fuel : Nat) :
    ∀ (n : Nat) (ds : List Char),
      Nat.toDigitsCore 10 fuel n ds = Nat.toDigitsCore 10 fuel n [] ++ ds := by
  induction fuel with
  | zero => intro n ds; rfl
  | succ fuel ih =>
    intro n ds
    simp only [Nat.toDigitsCore]
    split
    · rfl
    · rw [ih (n / 10) (Nat.digitChar (n % 10) :: ds), ih (n / 10) [Nat.digitChar (n % 10)]]
      simp

/-- A decimal numeral followed by something that is no digit is read as the numeral. -/
theorem strtol10_numeral_prefix (ws tail : List Char) (n : Int)
    (hws : ∀ c ∈ ws, isspace c = true)
    (htail : ∀ c, tail.head? = some c → isdigit c = false) :
    strtol10 (ws ++ (toString n).data ++ tail) = clampLong n := by
  have hnat : ∀ m : Nat, digitsValue 0 ((Nat.repr m).data ++ tail) = m := by
    intro m
    have hdata : (Nat.repr m).data = Nat.toDigitsCore 10 (m + 1) m [] := rfl
    rw [hdata, ← toDigitsCore_append, digitsValue_toDigitsCore (m + 1) m tail (by omega)]
    exact digitsValue_of_no_digit m tail htail
  rw [List.append_assoc]
  unfold strtol10
  rw [skipSpace_append ws _ hws]
  cases n with
  | ofNat m =>
    have hdata : (toString (Int.ofNat m)).data = Nat.toDigitsCore 10 (m + 1) m [] := rfl
    obtain ⟨c, tl, hc, hdig⟩ := toDigitsCore_head (m + 1) m tail (by omega)
    obtain ⟨hsp, hm, hp⟩ := isdigit_not_special c hdig
    have hv := hnat m
    have hrepr : (Nat.repr m).data = Nat.toDigitsCore 10 (m + 1) m [] := rfl
    rw [hrepr, ← toDigitsCore_append, hc] at hv
    rw [hdata, ← toDigitsCore_append, hc]
    have hskip : skipSpace (c :: tl) = c :: tl := by simp [skipSpace, hsp]
    rw [hskip]
    split
    · rename_i heq; simp at heq; exact absurd heq.1 hm
    · rename_i heq; simp at heq; exact absurd heq.1 hp
    · rw [hv]; rfl
  | negSucc m =>
    have hdata : (toString (Int.negSucc m)).data = '-' :: (Nat.repr (m + 1)).data := rfl
    have hskip : ∀ tl, skipSpace ('-' :: tl) = '-' :: tl := by
      intro tl; simp [skipSpace, isspace]
    rw [hdata, List.cons_append, hskip]
    simp only [hnat (m + 1)]
    have e : (-((m + 1 : Nat) : Int)) = Int.negSucc m := by
      rw [Int.negSucc_eq]; push_cast; rfl
    rw [e]

theorem toInt32_clampLong_of_int (n : Int) (hlo : INT_MIN ≤ n) (hhi : n ≤ INT_MAX) :
    toInt32 (clampLong n) = n := by
  simp only [INT_MIN, INT_MAX] at hlo hhi
  have hclamp : clampLong n = n := by
    simp only [clampLong, LONG_MIN, LONG_MAX]
    split
    · omega
    · split
      · omega
      · rfl
  rw [hclamp]
  simp only [toInt32]
  omega

/-! ## C11 -/

/-- C11: integer option values are never validated.  For each of `-k`, `-l`, `-t` and
every value token whatsoever the call returns 0 and the field is `atoi` of the token; a
token that has no decimal digit after its optional white space and sign is read as 0,
and a token that starts (after optional white space) with the decimal numeral of an
`int` and goes on with something that is no digit is read as that numeral. -/
theorem integer_values_not_validated (pc : Bool) (prog : String) (rank : Int)
    (fn gn fs fa : String) (tok : String) :
    get_configuration pc [prog, "-k", tok] rank fn gn fs fa =
      some ⟨.returned 0 { defaults fn gn fs fa with key_index := atoi tok }, "", []⟩ ∧
    get_configuration pc [prog, "-l", tok] rank fn gn fs fa =
      some ⟨.returned 0
        { defaults fn gn fs fa with
          weak_scale_test := 1, weak_scale_test_length := atoi tok }, "", []⟩ ∧
    get_configuration pc [prog, "-t", tok] rank fn gn fs fa =
      some ⟨.returned 0
        { defaults fn gn fs fa with
          local_sort_threaded := 1, local_sort_threads_num := atoi tok }, "", []⟩ ∧
    ((∀ c, (dropSign (tok.data.dropWhile isspace)).head? = some c → isdigit c = false) →
      atoi tok = 0) ∧
    (∀ (ws : List Char) (n : Int) (tail : List Char),
      (∀ c ∈ ws, isspace c = true) → INT_MIN ≤ n → n ≤ INT_MAX →
      (∀ c, tail.head? = some c → isdigit c = false) →
      tok.data = ws ++ (toString n).data ++ tail → atoi tok = n) := by
  refine ⟨get_configuration_argsOf pc prog [Opt.k tok] rank fn gn fs fa,
    get_configuration_argsOf pc prog [Opt.l tok] rank fn gn fs fa,
    get_configuration_argsOf pc prog [Opt.t tok] rank fn gn fs fa, ?_, ?_⟩
  · intro h
    simp only [atoi, strtol10_of_no_digit tok.data h]
    decide
  · intro ws n tail hws hlo hhi htail hdata
    simp only [atoi, hdata, strtol10_numeral_prefix ws tail n hws htail]
    exact toInt32_clampLong_of_int n hlo hhi

/-- C11, witness: `-k abc` gives `key_index = 0` and `-k 12abc` gives `key_index = 12`. -/
theorem integer_values_not_validated_witness :
    (get_configuration false ["h5group-sorter", "-k", "abc"] 0 "" "" "" "" =
        some ⟨.returned 0 { defaults "" "" "" "" with key_index := atoi "abc" }, "", []⟩ ∧
      atoi "abc" = 0) ∧
    (get_configuration false ["h5group-sorter", "-k", "12abc"] 0 "" "" "" "" =
        some ⟨.returned 0 { defaults "" "" "" "" with key_index := atoi "12abc" }, "", []⟩ ∧
      atoi "12abc" = 12) :=
  ⟨⟨(integer_values_not_validated false "h5group-sorter" 0 "" "" "" "" "abc").1,
    (integer_values_not_validated false "h5group-sorter" 0 "" "" "" "" "abc").2.2.2.1
      (by decide)⟩,
   ⟨(integer_values_not_validated false "h5group-sorter" 0 "" "" "" "" "12abc").1,
    (integer_values_not_validated false "h5group-sorter" 0 "" "" "" "" "12abc").2.2.2.2
      [] 12 "abc".data (by decide) (by decide) (by decide) (by decide) rfl⟩⟩

/-! ## Invariants of the scan -/

/-- A property of scanning position and configuration that every pass through the loop
body keeps holds for what the call returns. -/
theorem loop_invariant (pc : Bool) (rank : Int) (I : GetoptState → Configuration → Prop)
    (hstep : ∀ st cfg c cfg', I st cfg → (getopt pc options st).c = some c →
      switch rank c (getopt pc options st).optarg cfg = .next cfg' →
      I (getopt pc options st).st cfg') :
    ∀ (fuel : Nat) (st : GetoptState) (cfg : Configuration) (err : List GetoptDiagnostic)
      (r : Result), I st cfg → loop pc rank fuel st cfg err = some r →
      ∀ code cfg', r.outcome = .returned code cfg' → ∃ st', I st' cfg' := by
  intro fuel
  induction fuel with
  | zero => intro st cfg err r _ h; simp [loop] at h
  | succ fuel ih =>
    intro st cfg err r hI h code cfg' hout
    simp only [loop] at h
    cases hc : (getopt pc options st).c with
    | none =>
      rw [hc] at h
      cases h
      cases hout
      exact ⟨st, hI⟩
    | some c =>
      rw [hc] at h
      simp only at h
      cases hs : switch rank c (getopt pc options st).optarg cfg with
      | next cfg2 =>
        rw [hs] at h
        exact ih _ _ _ r (hstep st cfg c cfg2 hI hc hs) h code cfg' hout
      | ret code2 out =>
        rw [hs] at h
        cases h
        cases hout
        exact ⟨st, hI⟩
      | quit status out =>
        rw [hs] at h
        cases h
        cases hout
      | undefined =>
        rw [hs] at h
        cases h

/-- The five ways in which `getopt` deals with one option character. -/
theorem shortOption_cases (c : Char) (cs : List Char) (rest : List String) :
    (c ∉ optionCharacters ∧
      shortOption options.data c cs rest =
        ⟨some '?', none, ⟨cs, rest⟩, [.invalidOption c]⟩) ∨
    (c ∈ optionCharacters ∧ c ∉ valueCharacters ∧
      shortOption options.data c cs rest = ⟨some c, none, ⟨cs, rest⟩, []⟩) ∨
    (c ∈ valueCharacters ∧ cs ≠ [] ∧
      shortOption options.data c cs rest =
        ⟨some c, some (String.mk cs), ⟨[], rest⟩, []⟩) ∨
    (c ∈ valueCharacters ∧ cs = [] ∧ rest = [] ∧
      shortOption options.data c cs rest =
        ⟨some '?', none, ⟨[], []⟩, [.requiresArgument c]⟩) ∨
    (c ∈ valueCharacters ∧ cs = [] ∧ ∃ a rest', rest = a :: rest' ∧
      shortOption options.data c cs rest = ⟨some c, some a, ⟨[], rest'⟩, []⟩) := by
  by_cases hc : c ∈ optionCharacters
  · by_cases hv : c ∈ valueCharacters
    · cases cs with
      | cons x xs =>
        exact Or.inr (Or.inr (Or.inl ⟨hv, List.cons_ne_nil _ _,
          shortOption_attached c x xs rest hv⟩))
      | nil =>
        cases rest with
        | nil => exact Or.inr (Or.inr (Or.inr (Or.inl ⟨hv, rfl, rfl, shortOption_missing c hv⟩)))
        | cons a rest' =>
          exact Or.inr (Or.inr (Or.inr (Or.inr ⟨hv, rfl, a, rest', rfl,
            shortOption_separate c a rest' hv⟩)))
    · exact Or.inr (Or.inl ⟨hc, hv, shortOption_flag c cs rest hc hv⟩)
  · exact Or.inl ⟨hc, shortOption_unrecognized c cs rest hc⟩

/-- A call of `getopt` returns `-1`, or it handles the next character of the current
element, or the first character of the next option element. -/
theorem getopt_cases (pc : Bool) (st : GetoptState) :
    (getopt pc options st).c = none ∨
    ∃ c cs rest', getopt pc options st = shortOption options.data c cs rest' ∧
      ((st.nextchar = c :: cs ∧ rest' = st.rest) ∨
        (st.nextchar = [] ∧ ∃ a, a :: rest' <:+ st.rest ∧ a.data = '-' :: c :: cs)) := by
  obtain ⟨nc, rest⟩ := st
  cases nc with
  | cons c cs => exact Or.inr ⟨c, cs, rest, rfl, Or.inl ⟨rfl, rfl⟩⟩
  | nil =>
    have hsuf : (if pc = true then rest else skipNonoptions rest) <:+ rest := by
      cases pc
      · simpa using skipNonoptions_suffix rest
      · simp
    simp only [getopt]
    generalize (if pc = true then rest else skipNonoptions rest) = eff at hsuf
    cases eff with
    | nil => exact Or.inl rfl
    | cons a rest' =>
      simp only
      by_cases ha : a = "--"
      · rw [if_pos ha]
        exact Or.inl rfl
      · rw [if_neg ha]
        split
        · rename_i c cs heq
          exact Or.inr ⟨c, cs, rest', rfl, Or.inr ⟨trivial, a, hsuf, heq⟩⟩
        · exact Or.inl rfl

/-- A character that is not ahead in the vector is not returned by `getopt`, and is not
ahead afterwards either. -/
theorem getopt_noOptionCharacter (pc : Bool) (x : Char) (st : GetoptState)
    (hx : x ≠ '?') (h : NoOptionCharacter x st) :
    (getopt pc options st).c ≠ some x ∧ NoOptionCharacter x (getopt pc options st).st := by
  rcases getopt_cases pc st with hnone | ⟨c, cs, rest', hg, hfrom⟩
  · refine ⟨by rw [hnone]; simp, ?_⟩
    obtain ⟨nc, rest⟩ := st
    cases nc with
    | cons c cs =>
      have : (getopt pc options ⟨c :: cs, rest⟩).c = (shortOption options.data c cs rest).c :=
        rfl
      rw [this] at hnone
      rcases shortOption_cases c cs rest with ⟨-, e⟩ | ⟨-, -, e⟩ | ⟨-, -, e⟩ | ⟨-, -, -, e⟩ |
        ⟨-, -, a, r', -, e⟩ <;> rw [e] at hnone <;> simp at hnone
    | nil =>
      have hsuf : (if pc = true then rest else skipNonoptions rest) <:+ rest := by
        cases pc
        · simpa using skipNonoptions_suffix rest
        · simp
      simp only [getopt] at hnone ⊢
      generalize (if pc = true then rest else skipNonoptions rest) = eff at hsuf hnone
      have hsub : ∀ l : List String, l <:+ rest → NoOptionCharacter x ⟨[], l⟩ :=
        fun l hl => ⟨List.not_mem_nil _, fun a ha => h.2 a (hl.subset ha)⟩
      cases eff with
      | nil => exact ⟨List.not_mem_nil _, fun a ha => absurd ha (List.not_mem_nil _)⟩
      | cons a rest' =>
        simp only at hnone ⊢
        by_cases ha : a = "--"
        · simp only [ha, if_true]
          exact hsub rest' ((List.suffix_cons a rest').trans hsuf)
        · simp only [ha, if_false] at hnone ⊢
          split
          · rename_i c cs heq
            simp only [heq] at hnone
            rcases shortOption_cases c cs rest' with ⟨-, e⟩ | ⟨-, -, e⟩ | ⟨-, -, e⟩ |
              ⟨-, -, -, e⟩ | ⟨-, -, a', r', -, e⟩ <;> rw [e] at hnone <;> simp at hnone
          · exact hsub (a :: rest') hsuf
  · have hahead : x ∉ c :: cs ∧ ∀ a ∈ rest', a.data.head? = some '-' → x ∉ a.data.tail := by
      rcases hfrom with ⟨hnc, hrest⟩ | ⟨-, a, hsuf, ha⟩
      · exact ⟨hnc ▸ h.1, hrest ▸ h.2⟩
      · refine ⟨?_, fun b hb => h.2 b (hsuf.subset (List.mem_cons_of_mem _ hb))⟩
        have := h.2 a (hsuf.subset (List.mem_cons_self _ _)) (by rw [ha]; rfl)
        rw [ha] at this
        exact this
    obtain ⟨hxc, hrest⟩ := hahead
    have hne : c ≠ x := fun e => hxc (e ▸ List.mem_cons_self _ _)
    have hcs : x ∉ cs := fun e => hxc (List.mem_cons_of_mem _ e)
    rw [hg]
    rcases shortOption_cases c cs rest' with ⟨-, e⟩ | ⟨-, -, e⟩ | ⟨-, -, e⟩ | ⟨-, -, -, e⟩ |
      ⟨-, -, a, r', hr, e⟩ <;> rw [e]
    · exact ⟨fun e' => hx (Option.some.inj e').symm, hcs, hrest⟩
    · exact ⟨fun e' => hne (Option.some.inj e'), hcs, hrest⟩
    · exact ⟨fun e' => hne (Option.some.inj e'), List.not_mem_nil _, hrest⟩
    · exact ⟨fun e' => hx (Option.some.inj e').symm, List.not_mem_nil _,
        fun a ha => absurd ha (List.not_mem_nil _)⟩
    · exact ⟨fun e' => hne (Option.some.inj e'), List.not_mem_nil _,
        fun b hb => hrest b (hr ▸ List.mem_cons_of_mem _ hb)⟩

/-! ## Text fields that no option writes -/

theorem switch_keeps_filename (rank : Int) (c : Char) (optarg : Option String)
    (cfg cfg' : Configuration) (hne : c ≠ 'f')
    (h : switch rank c optarg cfg = .next cfg') : cfg'.filename = cfg.filename := by
  by_cases hc : c ∈ optionCharacters
  · simp only [optionCharacters, List.mem_cons, List.mem_singleton, List.not_mem_nil,
      or_false] at hc
    rcases hc with e | e | e | e | e | e | e | e | e | e | e | e | e <;> subst e <;>
      first
      | exact absurd rfl hne
      | (cases h; rfl)
      | (cases h)
      | (cases optarg <;> first | (cases h; rfl) | cases h)
  · rw [switch_unrecognized rank c optarg cfg hc] at h
    cases h

theorem switch_keeps_filename_sorted (rank : Int) (c : Char) (optarg : Option String)
    (cfg cfg' : Configuration) (hne : c ≠ 'o')
    (h : switch rank c optarg cfg = .next cfg') :
    cfg'.filename_sorted = cfg.filename_sorted := by
  by_cases hc : c ∈ optionCharacters
  · simp only [optionCharacters, List.mem_cons, List.mem_singleton, List.not_mem_nil,
      or_false] at hc
    rcases hc with e | e | e | e | e | e | e | e | e | e | e | e | e <;> subst e <;>
      first
      | exact absurd rfl hne
      | (cases h; rfl)
      | (cases h)
      | (cases optarg <;> first | (cases h; rfl) | cases h)
  · rw [switch_unrecognized rank c optarg cfg hc] at h
    cases h

theorem switch_keeps_filename_attribute (rank : Int) (c : Char) (optarg : Option String)
    (cfg cfg' : Configuration) (hne : c ≠ 'a')
    (h : switch rank c optarg cfg = .next cfg') :
    cfg'.filename_attribute = cfg.filename_attribute := by
  by_cases hc : c ∈ optionCharacters
  · simp only [optionCharacters, List.mem_cons, List.mem_singleton, List.not_mem_nil,
      or_false] at hc
    rcases hc with e | e | e | e | e | e | e | e | e | e | e | e | e <;> subst e <;>
      first
      | exact absurd rfl hne
      | (cases h; rfl)
      | (cases h)
      | (cases optarg <;> first | (cases h; rfl) | cases h)
  · rw [switch_unrecognized rank c optarg cfg hc] at h
    cases h

theorem switch_keeps_group_name (rank : Int) (c : Char) (optarg : Option String)
    (cfg cfg' : Configuration) (hne : c ≠ 'g')
    (h : switch rank c optarg cfg = .next cfg') : cfg'.group_name = cfg.group_name := by
  by_cases hc : c ∈ optionCharacters
  · simp only [optionCharacters, List.mem_cons, List.mem_singleton, List.not_mem_nil,
      or_false] at hc
    rcases hc with e | e | e | e | e | e | e | e | e | e | e | e | e <;> subst e <;>
      first
      | exact absurd rfl hne
      | (cases h; rfl)
      | (cases h)
      | (cases optarg <;> first | (cases h; rfl) | cases h)
  · rw [switch_unrecognized rank c optarg cfg hc] at h
    cases h

/-- A field that only the option character `x` writes is returned as it was when no
option element of the vector holds `x`. -/
theorem returned_field_unchanged {α : Type} (field : Configuration → α) (x : Char)
    (hx : x ≠ '?')
    (hkeep : ∀ (rank : Int) (c : Char) (optarg : Option String) (cfg cfg' : Configuration),
      c ≠ x → switch rank c optarg cfg = .next cfg' → field cfg' = field cfg)
    (pc : Bool) (rank : Int) (args : List String) (cfg0 : Configuration)
    (hno : ∀ a ∈ args, a.data.head? = some '-' → x ∉ a.data.tail)
    (r : Result) (hr : run pc rank ⟨[], args⟩ cfg0 [] = some r)
    (code : Int) (cfg : Configuration) (hout : r.outcome = .returned code cfg) :
    field cfg = field cfg0 := by
  have hinv := loop_invariant pc rank
    (fun st c => field c = field cfg0 ∧ NoOptionCharacter x st)
    (by
      intro st c0 c c1 hI hc hs
      obtain ⟨hne, hno'⟩ := getopt_noOptionCharacter pc x st hx hI.2
      refine ⟨?_, hno'⟩
      rw [hkeep rank c _ c0 c1 (fun e => hne (e ▸ hc)) hs]
      exact hI.1)
    _ ⟨[], args⟩ cfg0 [] r ⟨rfl, List.not_mem_nil _, hno⟩ hr code cfg hout
  obtain ⟨_, h, -⟩ := hinv
  exact h

/-! ## C12 -/

/-- C12, counterexample: the vector `-s` resolves and does not supply `-f`, the caller's
buffer held `stale.h5`, and the resolved `filename` is `stale.h5`, not the empty
string. -/
theorem unset_filename_not_emptied :
    get_configuration false ["h5group-sorter", "-s"] 0 "stale.h5" "" "" "" =
      some ⟨.returned 0 { defaults "stale.h5" "" "" "" with skew_data := 1 }, "", []⟩ ∧
    ({ defaults "stale.h5" "" "" "" with skew_data := 1 } : Configuration).filename =
      "stale.h5" ∧
    ("stale.h5" : String) ≠ "" := by
  decide

/-- C12, amended: unset text fields keep the caller's content.  For every argument vector
the call ends with a result, and if it returns and no option element of the vector (no
token that starts with `-`) holds the character `f` (respectively `o`, `a`, `g`), then
`filename` (respectively `filename_sorted`, `filename_attribute`, `group_name`) is what
the caller's buffer held before the call.  The same holds for a vector of recognized
options with arbitrary value tokens among which there is no `-f` (respectively `-o`,
`-a`, `-g`). -/
theorem unset_text_fields_keep_caller_content (pc : Bool) (prog : String)
    (args : List String) (os : List Opt) (rank : Int) (fn gn fs fa : String) :
    (∃ r, get_configuration pc (prog :: args) rank fn gn fs fa = some r ∧
      ∀ code cfg, r.outcome = .returned code cfg →
        ((∀ a ∈ args, a.data.head? = some '-' → 'f' ∉ a.data.tail) → cfg.filename = fn) ∧
        ((∀ a ∈ args, a.data.head? = some '-' → 'o' ∉ a.data.tail) →
          cfg.filename_sorted = fs) ∧
        ((∀ a ∈ args, a.data.head? = some '-' → 'a' ∉ a.data.tail) →
          cfg.filename_attribute = fa) ∧
        ((∀ a ∈ args, a.data.head? = some '-' → 'g' ∉ a.data.tail) →
          cfg.group_name = gn)) ∧
    (∃ cfg, get_configuration pc (prog :: argsOf os) rank fn gn fs fa =
        some ⟨.returned 0 cfg, "", []⟩ ∧
      ((∀ x, Opt.f x ∉ os) → cfg.filename = fn) ∧
      ((∀ x, Opt.o x ∉ os) → cfg.filename_sorted = fs) ∧
      ((∀ x, Opt.a x ∉ os) → cfg.filename_attribute = fa) ∧
      ((∀ x, Opt.g x ∉ os) → cfg.group_name = gn)) := by
  constructor
  · obtain ⟨r, hr⟩ := get_configuration_total pc (prog :: args) rank fn gn fs fa
    refine ⟨r, hr, fun code cfg hout => ⟨fun h => ?_, fun h => ?_, fun h => ?_, fun h => ?_⟩⟩
    · exact returned_field_unchanged (fun c => c.filename) 'f' (by decide)
        switch_keeps_filename pc rank args _ h r hr code cfg hout
    · exact returned_field_unchanged (fun c => c.filename_sorted) 'o' (by decide)
        switch_keeps_filename_sorted pc rank args _ h r hr code cfg hout
    · exact returned_field_unchanged (fun c => c.filename_attribute) 'a' (by decide)
        switch_keeps_filename_attribute pc rank args _ h r hr code cfg hout
    · exact returned_field_unchanged (fun c => c.group_name) 'g' (by decide)
        switch_keeps_group_name pc rank args _ h r hr code cfg hout
  · exact ⟨_, get_configuration_argsOf pc prog os rank fn gn fs fa,
      fun h => frame_filename os h _, fun h => frame_filename_sorted os h _,
      fun h => frame_filename_attribute os h _, fun h => frame_group_name os h _⟩

/-- C12, witness: `-sv -k5 data` with the buffers `in.h5`, `/grp`, `out.h5`, `tab.attr`
returns 0 and leaves the four buffers as they were. -/
theorem unset_text_fields_keep_caller_content_witness :
    ∃ r, get_configuration false ["h5group-sorter", "-sv", "-k5", "data"] 0
        "in.h5" "/grp" "out.h5" "tab.attr" = some r ∧
      ∃ code cfg, r.outcome = .returned code cfg ∧
        cfg.filename = "in.h5" ∧ cfg.filename_sorted = "out.h5" ∧
        cfg.filename_attribute = "tab.attr" ∧ cfg.group_name = "/grp" := by
  obtain ⟨⟨r, hr, h⟩, -⟩ :=
    unset_text_fields_keep_caller_content false "h5group-sorter" ["-sv", "-k5", "data"] []
      0 "in.h5" "/grp" "out.h5" "tab.attr"
  have hval : get_configuration false ["h5group-sorter", "-sv", "-k5", "data"] 0
      "in.h5" "/grp" "out.h5" "tab.attr" =
      some ⟨.returned 0
        { defaults "in.h5" "/grp" "out.h5" "tab.attr" with
          skew_data := 1, verbose := 1, key_index := 5 }, "", []⟩ := by decide
  rw [hval] at hr
  cases hr
  obtain ⟨h1, h2, h3, h4⟩ := h 0 _ rfl
  exact ⟨_, hval, 0, _, rfl, h1 (by decide), h2 (by decide), h3 (by decide), h4 (by decide)⟩

/-! ## Reordering options -/

theorem apply_comm (o1 o2 : Opt) (cfg : Configuration) (h : o1.letter ≠ o2.letter) :
    Opt.apply (Opt.apply cfg o1) o2 = Opt.apply (Opt.apply cfg o2) o1 := by
  cases o1 <;> cases o2 <;> first | rfl | exact absurd rfl h

theorem foldl_swap (xs ys : List Opt) (o1 o2 : Opt) (cfg : Configuration)
    (h : o1.letter ≠ o2.letter) :
    (xs ++ o1 :: o2 :: ys).foldl Opt.apply cfg = (xs ++ o2 :: o1 :: ys).foldl Opt.apply cfg := by
  simp only [List.foldl_append, List.foldl_cons, apply_comm o1 o2 _ h]

/-- Two folds that start with the same value in a field end with the same value in it,
when every option writes into the field a value that does not depend on the
configuration. -/
theorem foldl_field_agree {α : Type} (field : Configuration → α)
    (hstep : ∀ (o : Opt) (cfg cfg' : Configuration), field cfg = field cfg' →
      field (o.apply cfg) = field (o.apply cfg'))
    (os : List Opt) :
    ∀ cfg cfg' : Configuration, field cfg = field cfg' →
      field (os.foldl Opt.apply cfg) = field (os.foldl Opt.apply cfg') := by
  induction os with
  | nil => intro cfg cfg' h; exact h
  | cons o os ih =>
    intro cfg cfg' h
    simp only [List.foldl_cons]
    exact ih _ _ (hstep o cfg cfg' h)

/-- A field depends on the occurrences of its own option only. -/
theorem foldl_field_filter {α : Type} (field : Configuration → α) (c : Char)
    (hother : ∀ (o : Opt) (cfg : Configuration), o.letter ≠ c →
      field (o.apply cfg) = field cfg)
    (hstep : ∀ (o : Opt) (cfg cfg' : Configuration), field cfg = field cfg' →
      field (o.apply cfg) = field (o.apply cfg'))
    (os : List Opt) :
    ∀ cfg : Configuration,
      field (os.foldl Opt.apply cfg) =
        field ((os.filter fun o => o.letter = c).foldl Opt.apply cfg) := by
  induction os with
  | nil => intro cfg; rfl
  | cons o os ih =>
    intro cfg
    by_cases h : o.letter = c
    · simp only [List.foldl_cons, List.filter_cons, h, decide_True, if_true]
      exact ih _
    · simp only [List.foldl_cons, List.filter_cons, h, decide_False]
      rw [ih]
      exact foldl_field_agree field hstep _ _ _ (hother o cfg h)

theorem configuration_ext (c1 c2 : Configuration)
    (h1 : c1.key_index = c2.key_index) (h2 : c1.sort_key_only = c2.sort_key_only)
    (h3 : c1.skew_data = c2.skew_data) (h4 : c1.verbose = c2.verbose)
    (h5 : c1.write_result = c2.write_result) (h6 : c1.collect_data = c2.collect_data)
    (h7 : c1.weak_scale_test = c2.weak_scale_test)
    (h8 : c1.weak_scale_test_length = c2.weak_scale_test_length)
    (h9 : c1.local_sort_threaded = c2.local_sort_threaded)
    (h10 : c1.local_sort_threads_num = c2.local_sort_threads_num)
    (h11 : c1.filename = c2.filename) (h12 : c1.group_name = c2.group_name)
    (h13 : c1.filename_sorted = c2.filename_sorted)
    (h14 : c1.filename_attribute = c2.filename_attribute) : c1 = c2 := by
  cases c1
  cases c2
  simp only at h1 h2 h3 h4 h5 h6 h7 h8 h9 h10 h11 h12 h13 h14
  simp only [h1, h2, h3, h4, h5, h6, h7, h8, h9, h10, h11, h12, h13, h14]

/-- Two lists of options in which every option has the same occurrences in the same order
have the same effect. -/
theorem foldl_eq_of_filter_eq (os os' : List Opt) (cfg : Configuration)
    (h : ∀ c ∈ optionCharacters,
      (os.filter fun o => o.letter = c) = os'.filter fun o => o.letter = c) :
    os.foldl Opt.apply cfg = os'.foldl Opt.apply cfg := by
  have key : ∀ {α : Type} (field : Configuration → α) (c : Char), c ∈ optionCharacters →
      (∀ (o : Opt) (cfg : Configuration), o.letter ≠ c → field (o.apply cfg) = field cfg) →
      (∀ (o : Opt) (cfg cfg' : Configuration), field cfg = field cfg' →
        field (o.apply cfg) = field (o.apply cfg')) →
      field (os.foldl Opt.apply cfg) = field (os'.foldl Opt.apply cfg) := by
    intro α field c hc hother hstep
    rw [foldl_field_filter field c hother hstep os cfg,
      foldl_field_filter field c hother hstep os' cfg, h c hc]
  apply configuration_ext
  · exact key (fun c => c.key_index) 'k' (by decide)
      (by intro o cfg hne; cases o <;> first | rfl | exact absurd rfl hne)
      (by intro o cfg cfg' h; cases o <;> first | exact h | rfl)
  · exact key (fun c => c.sort_key_only) 'e' (by decide)
      (by intro o cfg hne; cases o <;> first | rfl | exact absurd rfl hne)
      (by intro o cfg cfg' h; cases o <;> first | exact h | rfl)
  · exact key (fun c => c.skew_data) 's' (by decide)
      (by intro o cfg hne; cases o <;> first | rfl | exact absurd rfl hne)
      (by intro o cfg cfg' h; cases o <;> first | exact h | rfl)
  · exact key (fun c => c.verbose) 'v' (by decide)
      (by intro o cfg hne; cases o <;> first | rfl | exact absurd rfl hne)
      (by intro o cfg cfg' h; cases o <;> first | exact h | rfl)
  · exact key (fun c => c.write_result) 'm' (by decide)
      (by intro o cfg hne; cases o <;> first | rfl | exact absurd rfl hne)
      (by intro o cfg cfg' h; cases o <;> first | exact h | rfl)
  · exact key (fun c => c.collect_data) 'c' (by decide)
      (by intro o cfg hne; cases o <;> first | rfl | exact absurd rfl hne)
      (by intro o cfg cfg' h; cases o <;> first | exact h | rfl)
  · exact key (fun c => c.weak_scale_test) 'l' (by decide)
      (by intro o cfg hne; cases o <;> first | rfl | exact absurd rfl hne)
      (by intro o cfg cfg' h; cases o <;> first | exact h | rfl)
  · exact key (fun c => c.weak_scale_test_length) 'l' (by decide)
      (by intro o cfg hne; cases o <;> first | rfl | exact absurd rfl hne)
      (by intro o cfg cfg' h; cases o <;> first | exact h | rfl)
  · exact key (fun c => c.local_sort_threaded) 't' (by decide)
      (by intro o cfg hne; cases o <;> first | rfl | exact absurd rfl hne)
      (by intro o cfg cfg' h; cases o <;> first | exact h | rfl)
  · exact key (fun c => c.local_sort_threads_num) 't' (by decide)
      (by intro o cfg hne; cases o <;> first | rfl | exact absurd rfl hne)
      (by intro o cfg cfg' h; cases o <;> first | exact h | rfl)
  · exact key (fun c => c.filename) 'f' (by decide)
      (by intro o cfg hne; cases o <;> first | rfl | exact absurd rfl hne)
      (by intro o cfg cfg' h; cases o <;> first | exact h | rfl)
  · exact key (fun c => c.group_name) 'g' (by decide)
      (by intro o cfg hne; cases o <;> first | rfl | exact absurd rfl hne)
      (by intro o cfg cfg' h; cases o <;> first | exact h | rfl)
  · exact key (fun c => c.filename_sorted) 'o' (by decide)
      (by intro o cfg hne; cases o <;> first | rfl | exact absurd rfl hne)
      (by intro o cfg cfg' h; cases o <;> first | exact h | rfl)
  · exact key (fun c => c.filename_attribute) 'a' (by decide)
      (by intro o cfg hne; cases o <;> first | rfl | exact absurd rfl hne)
      (by intro o cfg cfg' h; cases o <;> first | exact h | rfl)

/-! ## C13 -/

/-- C13: order independence.  For every argument vector made of recognized options other
than `-h`, each with its value token, swapping two adjacent option groups that belong to
different options yields the same result (outcome, every field, output); hence any
reordering in which every option keeps its occurrences in their relative order yields
the same result. -/
theorem order_of_different_options_irrelevant (pc : Bool) (prog : String) (rank : Int)
    (fn gn fs fa : String) :
    (∀ (xs ys : List Opt) (o1 o2 : Opt), o1.letter ≠ o2.letter →
      get_configuration pc (prog :: argsOf (xs ++ o1 :: o2 :: ys)) rank fn gn fs fa =
        get_configuration pc (prog :: argsOf (xs ++ o2 :: o1 :: ys)) rank fn gn fs fa) ∧
    (∀ os os' : List Opt,
      (∀ c ∈ optionCharacters,
        (os.filter fun o => o.letter = c) = os'.filter fun o => o.letter = c) →
      get_configuration pc (prog :: argsOf os) rank fn gn fs fa =
        get_configuration pc (prog :: argsOf os') rank fn gn fs fa) := by
  constructor
  · intro xs ys o1 o2 h
    rw [get_configuration_argsOf, get_configuration_argsOf, foldl_swap xs ys o1 o2 _ h]
  · intro os os' h
    rw [get_configuration_argsOf, get_configuration_argsOf,
      foldl_eq_of_filter_eq os os' _ h]

/-- C13, witness: `-k 2 -s -f a.h5` against `-s -k 2 -f a.h5`, and `-k 1 -s -k 2` against
`-s -k 1 -k 2`. -/
theorem order_of_different_options_irrelevant_witness :
    ((Opt.k "2").letter ≠ Opt.s.letter ∧
      get_configuration false ["h5group-sorter", "-k", "2", "-s", "-f", "a.h5"] 0
          "" "" "" "" =
        get_configuration false ["h5group-sorter", "-s", "-k", "2", "-f", "a.h5"] 0
          "" "" "" "") ∧
    ((∀ c ∈ optionCharacters,
        ([Opt.k "1", Opt.s, Opt.k "2"].filter fun o => o.letter = c) =
          [Opt.s, Opt.k "1", Opt.k "2"].filter fun o => o.letter = c) ∧
      get_configuration false ["h5group-sorter", "-k", "1", "-s", "-k", "2"] 0 "" "" "" "" =
        get_configuration false ["h5group-sorter", "-s", "-k", "1", "-k", "2"] 0
          "" "" "" "") :=
  ⟨⟨by decide,
    (order_of_different_options_irrelevant false "h5group-sorter" 0 "" "" "" "").1
      [] [Opt.f "a.h5"] (Opt.k "2") Opt.s (by decide)⟩,
   ⟨by decide,
    (order_of_different_options_irrelevant false "h5group-sorter" 0 "" "" "" "").2
      [Opt.k "1", Opt.s, Opt.k "2"] [Opt.s, Opt.k "1", Opt.k "2"] (by decide)⟩⟩

/-! ## C14 -/

theorem switch_keeps_coupled (rank : Int) (c : Char) (optarg : Option String)
    (cfg cfg' : Configuration) (hI : Coupled cfg)
    (h : switch rank c optarg cfg = .next cfg') : Coupled cfg' := by
  by_cases hc : c ∈ optionCharacters
  · simp only [optionCharacters, List.mem_cons, List.mem_singleton, List.not_mem_nil,
      or_false] at hc
    rcases hc with e | e | e | e | e | e | e | e | e | e | e | e | e <;> subst e <;>
      first
      | (cases h; exact hI)
      | (cases h)
      | (cases optarg <;> first
          | (cases h; exact hI)
          | (cases h; exact And.intro (fun (h0 : (1 : Int) = 0) => absurd h0 (by decide)) hI.2)
          | (cases h; exact And.intro hI.1 (fun (h0 : (1 : Int) = 0) => absurd h0 (by decide)))
          | (cases h))
  · rw [switch_unrecognized rank c optarg cfg hc] at h
    cases h

theorem switch_writes_parameter_with_flag (rank : Int) (c : Char) (optarg : Option String)
    (cfg cfg' : Configuration) (h : switch rank c optarg cfg = .next cfg') :
    (cfg'.weak_scale_test_length ≠ cfg.weak_scale_test_length → cfg'.weak_scale_test = 1) ∧
    (cfg'.local_sort_threads_num ≠ cfg.local_sort_threads_num →
      cfg'.local_sort_threaded = 1) := by
  by_cases hc : c ∈ optionCharacters
  · simp only [optionCharacters, List.mem_cons, List.mem_singleton, List.not_mem_nil,
      or_false] at hc
    rcases hc with e | e | e | e | e | e | e | e | e | e | e | e | e <;> subst e <;>
      first
      | (cases h; exact ⟨fun h0 => absurd rfl h0, fun h0 => absurd rfl h0⟩)
      | (cases h)
      | (cases optarg <;> first
          | (cases h; exact ⟨fun h0 => absurd rfl h0, fun h0 => absurd rfl h0⟩)
          | (cases h; exact ⟨fun _ => rfl, fun h0 => absurd rfl h0⟩)
          | (cases h; exact ⟨fun h0 => absurd rfl h0, fun _ => rfl⟩)
          | (cases h))
  · rw [switch_unrecognized rank c optarg cfg hc] at h
    cases h

/-- C14: flag/parameter coupling is an invariant of the parse.  It holds after the
defaults are written; every pass through the `switch` that goes on with the loop keeps
it, and changes a parameter only together with setting its enabling flag to 1; so in
every returned configuration `weak_scale_test = 0` implies
`weak_scale_test_length = 1000000` and `local_sort_threaded = 0` implies
`local_sort_threads_num = 16`. -/
theorem flag_parameter_coupling_invariant :
    (∀ fn gn fs fa : String, Coupled (defaults fn gn fs fa)) ∧
    (∀ (rank : Int) (c : Char) (optarg : Option String) (cfg cfg' : Configuration),
      switch rank c optarg cfg = .next cfg' →
      (Coupled cfg → Coupled cfg') ∧
      (cfg'.weak_scale_test_length ≠ cfg.weak_scale_test_length →
        cfg'.weak_scale_test = 1) ∧
      (cfg'.local_sort_threads_num ≠ cfg.local_sort_threads_num →
        cfg'.local_sort_threaded = 1)) ∧
    (∀ (pc : Bool) (argv : List String) (rank : Int) (fn gn fs fa : String),
      ∃ r, get_configuration pc argv rank fn gn fs fa = some r ∧
        ∀ code cfg, r.outcome = .returned code cfg →
          (cfg.weak_scale_test = 0 → cfg.weak_scale_test_length = 1000000) ∧
          (cfg.local_sort_threaded = 0 → cfg.local_sort_threads_num = 16)) := by
  have hinit : ∀ fn gn fs fa : String, Coupled (defaults fn gn fs fa) :=
    fun _ _ _ _ => ⟨fun _ => rfl, fun _ => rfl⟩
  refine ⟨hinit, fun rank c optarg cfg cfg' h =>
    ⟨fun hI => switch_keeps_coupled rank c optarg cfg cfg' hI h,
      switch_writes_parameter_with_flag rank c optarg cfg cfg' h⟩, ?_⟩
  intro pc argv rank fn gn fs fa
  obtain ⟨r, hr⟩ := get_configuration_total pc argv rank fn gn fs fa
  refine ⟨r, hr, fun code cfg hout => ?_⟩
  obtain ⟨_, h⟩ := loop_invariant pc rank (fun _ c => Coupled c)
    (fun st c0 c c1 hI _ hs => switch_keeps_coupled rank c _ c0 c1 hI hs)
    _ _ _ _ r (hinit fn gn fs fa) hr code cfg hout
  exact h

/-- C14, witness: `-v -t 8 -h` returns with `weak_scale_test = 0`,
`weak_scale_test_length = 1000000`, `local_sort_threaded = 1`; the step `-t 8` from the
defaults changes the thread count together with its flag. -/
theorem flag_parameter_coupling_invariant_witness :
    (switch 0 't' (some "8") (defaults "" "" "" "") =
        .next { defaults "" "" "" "" with
          local_sort_threaded := 1, local_sort_threads_num := 8 } ∧
      Coupled { defaults "" "" "" "" with
        local_sort_threaded := 1, local_sort_threads_num := 8 }) ∧
    ∃ r, get_configuration false ["h5group-sorter", "-v", "-t", "8", "-h"] 2 "" "" "" "" =
        some r ∧
      ∃ code cfg, r.outcome = .returned code cfg ∧ cfg.local_sort_threaded = 1 ∧
        (cfg.weak_scale_test = 0 → cfg.weak_scale_test_length = 1000000) ∧
        (cfg.local_sort_threaded = 0 → cfg.local_sort_threads_num = 16) := by
  obtain ⟨hinit, hstep, hret⟩ := flag_parameter_coupling_invariant
  have hsw : switch 0 't' (some "8") (defaults "" "" "" "") =
      .next { defaults "" "" "" "" with
        local_sort_threaded := 1, local_sort_threads_num := 8 } := by decide
  refine ⟨⟨hsw, (hstep 0 't' (some "8") _ _ hsw).1 (hinit "" "" "" "")⟩, ?_⟩
  obtain ⟨r, hr, h⟩ := hret false ["h5group-sorter", "-v", "-t", "8", "-h"] 2 "" "" "" ""
  have hval : get_configuration false ["h5group-sorter", "-v", "-t", "8", "-h"] 2
      "" "" "" "" =
      some ⟨.returned 1
        { defaults "" "" "" "" with
          verbose := 1, local_sort_threaded := 1, local_sort_threads_num := 8 }, "", []⟩ := by
    decide
  rw [hval] at hr
  cases hr
  exact ⟨_, hval, 1, _, rfl, rfl, h 1 _ rfl⟩

/-! ## C15 -/

theorem switch_rank (r1 r2 : Int) (c : Char) (optarg : Option String) (cfg : Configuration)
    (hne : c ≠ 'h') : switch r1 c optarg cfg = switch r2 c optarg cfg := by
  by_cases hc : c ∈ optionCharacters
  · simp only [optionCharacters, List.mem_cons, List.mem_singleton, List.not_mem_nil,
      or_false] at hc
    rcases hc with e | e | e | e | e | e | e | e | e | e | e | e | e <;> subst e <;>
      first
      | rfl
      | exact absurd rfl hne
  · rw [switch_unrecognized r1 c optarg cfg hc, switch_unrecognized r2 c optarg cfg hc]

theorem loop_rank (pc : Bool) (r1 r2 : Int) :
    ∀ (fuel : Nat) (st : GetoptState) (cfg : Configuration) (err : List GetoptDiagnostic),
      SameUpToHelp r1 r2 (loop pc r1 fuel st cfg err) (loop pc r2 fuel st cfg err) := by
  intro fuel
  induction fuel with
  | zero => intro st cfg err; exact True.intro
  | succ fuel ih =>
    intro st cfg err
    simp only [loop]
    cases hc : (getopt pc options st).c with
    | none => exact ⟨rfl, rfl, Or.inl rfl⟩
    | some c =>
      simp only
      by_cases hh : c = 'h'
      · subst hh
        have h1 : ∀ r : Int, switch r 'h' (getopt pc options st).optarg cfg =
            .ret 1 (if r = 0 then print_help else "") := fun _ => rfl
        rw [h1 r1, h1 r2]
        exact ⟨rfl, rfl, Or.inr ⟨⟨cfg, rfl⟩, rfl, rfl⟩⟩
      · rw [switch_rank r1 r2 c _ cfg hh]
        cases switch r2 c (getopt pc options st).optarg cfg with
        | next cfg' => exact ih _ _ _
        | ret code out => exact ⟨rfl, rfl, Or.inl rfl⟩
        | quit status out => exact ⟨rfl, rfl, Or.inl rfl⟩
        | undefined => exact True.intro

/-- C15: rank independence.  For every argument vector and every two ranks `r1` and `r2`
the two calls end with results that have the same outcome (return 0, return 1 or `exit`,
with the same value in every output field) and the same diagnostics; their standard
output is the same too, except that on `return 1` each rank prints the help text exactly
when it is rank 0. -/
theorem result_independent_of_rank (pc : Bool) (argv : List String) (r1 r2 : Int)
    (fn gn fs fa : String) :
    ∃ a b, get_configuration pc argv r1 fn gn fs fa = some a ∧
      get_configuration pc argv r2 fn gn fs fa = some b ∧
      a.outcome = b.outcome ∧ a.stderr = b.stderr ∧
      (a.stdout = b.stdout ∨
        ((∃ cfg, a.outcome = .returned 1 cfg) ∧
          a.stdout = (if r1 = 0 then print_help else "") ∧
          b.stdout = (if r2 = 0 then print_help else ""))) := by
  obtain ⟨a, ha⟩ := get_configuration_total pc argv r1 fn gn fs fa
  obtain ⟨b, hb⟩ := get_configuration_total pc argv r2 fn gn fs fa
  have h := loop_rank pc r1 r2 (remaining ⟨[], argv.drop 1⟩ + 1) ⟨[], argv.drop 1⟩
    (defaults fn gn fs fa) []
  have ha' : loop pc r1 (remaining ⟨[], argv.drop 1⟩ + 1) ⟨[], argv.drop 1⟩
      (defaults fn gn fs fa) [] = some a := ha
  have hb' : loop pc r2 (remaining ⟨[], argv.drop 1⟩ + 1) ⟨[], argv.drop 1⟩
      (defaults fn gn fs fa) [] = some b := hb
  rw [ha', hb'] at h
  exact ⟨a, b, ha, hb, h⟩

/-! ## Bundled options, attached values and `--` -/

/-- Scanning inside an element from the character `x` on is the same as scanning a fresh
element `-x...`. -/
theorem run_inside_element (pc : Bool) (rank : Int) (x : Char) (xs : List Char)
    (rest : List String) (cfg : Configuration) (err : List GetoptDiagnostic)
    (hdd : ¬(x = '-' ∧ xs = [])) :
    run pc rank ⟨x :: xs, rest⟩ cfg err =
      run pc rank ⟨[], String.mk ('-' :: x :: xs) :: rest⟩ cfg err := by
  rw [run_eq_continueWith, run_eq_continueWith,
    getopt_element pc options _ x xs rest rfl (mk_ne_dashdash x xs hdd)]
  rfl

theorem optionCharacter_ne_dash (c : Char) (hc : c ∈ optionCharacters) :
    ¬(c = '-' ∧ ([] : List Char) = []) := by
  intro h
  have h1 := h.1
  subst h1
  exact absurd hc (by decide)

theorem run_bundle (pc : Bool) (rank : Int) (c x : Char) (xs : List Char)
    (rest : List String) (cfg : Configuration) (err : List GetoptDiagnostic)
    (hc : c ∈ optionCharacters) (hv : c ∉ valueCharacters) (hdd : ¬(x = '-' ∧ xs = [])) :
    run pc rank ⟨[], String.mk ('-' :: c :: x :: xs) :: rest⟩ cfg err =
      run pc rank ⟨[], String.mk ['-', c] :: String.mk ('-' :: x :: xs) :: rest⟩ cfg err := by
  rw [run_eq_continueWith, run_eq_continueWith,
    getopt_element pc options _ c (x :: xs) rest rfl (mk_ne_dashdash c (x :: xs) (by simp)),
    getopt_element pc options _ c [] _ rfl (mk_ne_dashdash c [] (optionCharacter_ne_dash c hc)),
    shortOption_flag c (x :: xs) rest hc hv, shortOption_flag c [] _ hc hv]
  simp only [continueWith]
  cases switch rank c none cfg with
  | next cfg' => exact run_inside_element pc rank x xs rest cfg' _ hdd
  | ret code out => rfl
  | quit status out => rfl
  | undefined => rfl

theorem run_attached (pc : Bool) (rank : Int) (c x : Char) (xs : List Char)
    (rest : List String) (cfg : Configuration) (err : List GetoptDiagnostic)
    (hv : c ∈ valueCharacters) :
    run pc rank ⟨[], String.mk ('-' :: c :: x :: xs) :: rest⟩ cfg err =
      run pc rank ⟨[], String.mk ['-', c] :: String.mk (x :: xs) :: rest⟩ cfg err := by
  rw [run_eq_continueWith, run_eq_continueWith,
    getopt_element pc options _ c (x :: xs) rest rfl (mk_ne_dashdash c (x :: xs) (by simp)),
    getopt_element pc options _ c [] _ rfl
      (mk_ne_dashdash c [] (optionCharacter_ne_dash c (valueCharacters_sub c hv))),
    shortOption_attached c x xs rest hv, shortOption_separate c _ rest hv]

theorem run_dashdash (pc : Bool) (rank : Int) (rest : List String) (cfg : Configuration)
    (err : List GetoptDiagnostic) :
    run pc rank ⟨[], "--" :: rest⟩ cfg err = some ⟨.returned 0 cfg, "", err⟩ := by
  have hg : getopt pc options ⟨[], "--" :: rest⟩ = ⟨none, none, ⟨[], rest⟩, []⟩ := by
    cases pc <;> rfl
  rw [run_step, hg]
  simp only [List.append_nil]

/-! ## C16 -/

/-- C16, counterexample: the bundled token `-sv` is accepted as `-s` plus `-v`, the
attached value in `-k5` is accepted as `-k 5`, and `--` does end the options (the `-z`
after it is not read, so the call returns 0 instead of ending the process). -/
theorem bundle_attached_value_and_terminator_accepted :
    get_configuration false ["h5group-sorter", "-sv"] 0 "" "" "" "" =
      some ⟨.returned 0 { defaults "" "" "" "" with skew_data := 1, verbose := 1 }, "", []⟩ ∧
    get_configuration false ["h5group-sorter", "-s", "-v"] 0 "" "" "" "" =
      some ⟨.returned 0 { defaults "" "" "" "" with skew_data := 1, verbose := 1 }, "", []⟩ ∧
    get_configuration false ["h5group-sorter", "-k5"] 0 "" "" "" "" =
      some ⟨.returned 0 { defaults "" "" "" "" with key_index := 5 }, "", []⟩ ∧
    get_configuration false ["h5group-sorter", "-k", "5"] 0 "" "" "" "" =
      some ⟨.returned 0 { defaults "" "" "" "" with key_index := 5 }, "", []⟩ ∧
    get_configuration false ["h5group-sorter", "--", "-z"] 0 "" "" "" "" =
      some ⟨.returned 0 (defaults "" "" "" ""), "", []⟩ ∧
    get_configuration false ["h5group-sorter", "-z"] 0 "" "" "" "" =
      some ⟨.exited (-1), "Error option [(null)]\n", [.invalidOption 'z']⟩ := by
  decide

/-- C16, amended: the grammar is that of `getopt`.  After recognized options `pre`:
a token that bundles an option character without value (`c`) with further characters
acts like the token `-c` followed by a token `-` with those characters (`-sv` is `-s`
plus `-v`); a token in which characters follow a value-taking option character acts like
that option followed by those characters as its value token (`-k5` is `-k 5`), and in
separated form the value is the next token; a `--` token ends the options, nothing
after it is applied and the call returns 0. -/
theorem getopt_grammar_bundles_attaches_terminates (pc : Bool) (prog : String)
    (pre : List Opt) (rest : List String) (rank : Int) (fn gn fs fa : String) :
    (∀ (c x : Char) (xs : List Char), c ∈ optionCharacters → c ∉ valueCharacters →
      ¬(x = '-' ∧ xs = []) →
      get_configuration pc (prog :: (argsOf pre ++ String.mk ('-' :: c :: x :: xs) :: rest))
          rank fn gn fs fa =
        get_configuration pc
          (prog :: (argsOf pre ++ String.mk ['-', c] :: String.mk ('-' :: x :: xs) :: rest))
          rank fn gn fs fa) ∧
    (∀ (c x : Char) (xs : List Char), c ∈ valueCharacters →
      get_configuration pc (prog :: (argsOf pre ++ String.mk ('-' :: c :: x :: xs) :: rest))
          rank fn gn fs fa =
        get_configuration pc
          (prog :: (argsOf pre ++ String.mk ['-', c] :: String.mk (x :: xs) :: rest))
          rank fn gn fs fa) ∧
    get_configuration pc (prog :: (argsOf pre ++ "--" :: rest)) rank fn gn fs fa =
      some ⟨.returned 0 (pre.foldl Opt.apply (defaults fn gn fs fa)), "", []⟩ := by
  refine ⟨fun c x xs hc hv hdd => ?_, fun c x xs hv => ?_, ?_⟩
  · rw [get_configuration_eq_run, get_configuration_eq_run]
    show run pc rank ⟨[], argsOf pre ++ _⟩ _ [] = run pc rank ⟨[], argsOf pre ++ _⟩ _ []
    rw [run_argsOf, run_argsOf, run_bundle pc rank c x xs rest _ [] hc hv hdd]
  · rw [get_configuration_eq_run, get_configuration_eq_run]
    show run pc rank ⟨[], argsOf pre ++ _⟩ _ [] = run pc rank ⟨[], argsOf pre ++ _⟩ _ []
    rw [run_argsOf, run_argsOf, run_attached pc rank c x xs rest _ [] hv]
  · rw [get_configuration_eq_run]
    show run pc rank ⟨[], argsOf pre ++ _⟩ _ [] = _
    rw [run_argsOf, run_dashdash]

/-- C16, witness: after `-e`, the token `-sv` against `-s -v`, and the token `-k5` against
`-k 5`, each followed by `-c`. -/
theorem getopt_grammar_bundles_attaches_terminates_witness :
    ('s' ∈ optionCharacters ∧ 's' ∉ valueCharacters ∧ ¬('v' = '-' ∧ ([] : List Char) = []) ∧
      get_configuration false ["h5group-sorter", "-e", "-sv", "-c"] 0 "" "" "" "" =
        get_configuration false ["h5group-sorter", "-e", "-s", "-v", "-c"] 0 "" "" "" "") ∧
    ('k' ∈ valueCharacters ∧
      get_configuration false ["h5group-sorter", "-e", "-k5", "-c"] 0 "" "" "" "" =
        get_configuration false ["h5group-sorter", "-e", "-k", "5", "-c"] 0 "" "" "" "") :=
  ⟨⟨by decide, by decide, by decide,
    (getopt_grammar_bundles_attaches_terminates false "h5group-sorter" [Opt.e] ["-c"] 0
      "" "" "" "").1 's' 'v' [] (by decide) (by decide) (by decide)⟩,
   ⟨by decide,
    (getopt_grammar_bundles_attaches_terminates false "h5group-sorter" [Opt.e] ["-c"] 0
      "" "" "" "").2.1 'k' '5' [] (by decide)⟩⟩

/-! ## C17 -/

/-- C17: the scan stops at the first token that is `-h` or an unrecognized option, and that
token alone decides the outcome.  After recognized options `pre`, a `-h` makes the call
return 1 whatever follows (`post` is not examined), with the options before `-h` applied
and none after it; an unrecognized option token ends the process with `exit (-1)`
whatever follows, and no help text is printed, whatever the rank. -/
theorem scan_stops_at_help_or_unrecognized (pc : Bool) (prog : String) (pre : List Opt)
    (post : List String) (rank : Int) (fn gn fs fa : String) :
    get_configuration pc (prog :: (argsOf pre ++ "-h" :: post)) rank fn gn fs fa =
      some ⟨.returned 1 (pre.foldl Opt.apply (defaults fn gn fs fa)),
        if rank = 0 then print_help else "", []⟩ ∧
    (∀ (c : Char) (cs : List Char), c ∉ optionCharacters → ¬(c = '-' ∧ cs = []) →
      get_configuration pc (prog :: (argsOf pre ++ String.mk ('-' :: c :: cs) :: post)) rank
          fn gn fs fa =
        some ⟨.exited (-1), "Error option [(null)]\n", [.invalidOption c]⟩) := by
  constructor
  · rw [get_configuration_eq_run]
    show run pc rank ⟨[], argsOf pre ++ "-h" :: post⟩ _ [] = _
    rw [run_argsOf, run_help]
  · intro c cs hc hdd
    rw [get_configuration_eq_run]
    show run pc rank ⟨[], argsOf pre ++ String.mk ('-' :: c :: cs) :: post⟩ _ [] = _
    rw [run_argsOf, run_unrecognized pc rank c cs post _ [] hc hdd]
    rfl

/-- C17, witness: `-h -z` returns 1 and does not end the process; `-z -h` at rank 0 ends
the process and prints no help; in `-s -h -v` the flag before `-h` is written and the one
after it is not. -/
theorem scan_stops_at_help_or_unrecognized_witness :
    get_configuration false ["h5group-sorter", "-h", "-z"] 1 "" "" "" "" =
      some ⟨.returned 1 (defaults "" "" "" ""), "", []⟩ ∧
    ('z' ∉ optionCharacters ∧ ¬('z' = '-' ∧ ([] : List Char) = []) ∧
      get_configuration false ["h5group-sorter", "-z", "-h"] 0 "" "" "" "" =
        some ⟨.exited (-1), "Error option [(null)]\n", [.invalidOption 'z']⟩) ∧
    get_configuration false ["h5group-sorter", "-s", "-h", "-v"] 1 "" "" "" "" =
      some ⟨.returned 1 { defaults "" "" "" "" with skew_data := 1 }, "", []⟩ :=
  ⟨(scan_stops_at_help_or_unrecognized false "h5group-sorter" [] ["-z"] 1 "" "" "" "").1,
   ⟨by decide, by decide,
    (scan_stops_at_help_or_unrecognized false "h5group-sorter" [] ["-h"] 0 "" "" "" "").2
      'z' [] (by decide) (by decide)⟩,
   (scan_stops_at_help_or_unrecognized false "h5group-sorter" [Opt.s] ["-v"] 1
     "" "" "" "").1⟩

end VpicSorter
